import Mathlib

/-!
# Checkpoints (src/checkpoints.cpp)

A shallow embedding of the hard-coded checkpoint subsystem: the two checkpoint
tables, the network selector `Checkpoints()`, the enforcer `CheckBlock`, the
progress estimator `GuessVerificationProgress`, `GetTotalBlocksEstimate` and the
resolver `GetLastCheckpoint`.

Modelling conventions.

* `int`, `int64` and the integer fields of `CBlockIndex` are `Int`; no operation
  of this file is evaluated near the limits of the machine types.
* `uint256` is a natural number (every 256-bit digest is one).
* `std::map<int, uint256>` is a list of pairs kept in increasing key order by
  `MapCheckpoints.insert`; `boost::assign::map_list_of` inserts the listed pairs
  one after the other.
* A `CBlockIndex*` is an `Option CBlockIndex`, `none` being `NULL`.
* The three reads of the environment are parameters: `fCheckpoints` is the value
  of `GetBoolArg("-checkpoints", true)`, `fTestNet` the global network flag and
  `nNow` the value of `time(NULL)`.
* `double` arithmetic is read twice. `fWork`, `guessWith` and
  `GuessVerificationProgress` read it exactly, over `ℚ`; only the final division can
  leave the finite numbers, and its result is a `double` value that is finite,
  infinite or NaN. The concrete runs that refute a statement there are shown to stay
  within the numbers binary64 holds exactly (`isBinary64` over `fTrace`), where
  rounding changes nothing. `fWorkR`, `guessWithR` and `GuessVerificationProgress64`
  round after every conversion and operation, with `round64` the rounding to the
  nearest binary64 number, ties to even; without rounding they are the exact reading
  (`guessWithR_id`).
-/

set_option linter.dupNamespace false

namespace Checkpoints

/-! ## Data model -/

/-- A 256-bit digest (`uint256`), as the number it denotes. -/
abbrev uint256 := Nat

/-- The type `std::map<int, uint256>`: pairs in increasing key order. -/
abbrev MapCheckpoints := List (Int × uint256)

/-- Insertion `std::map::insert`: the pair goes to its place in key order, and a key
that is already present keeps its value. -/
def MapCheckpoints.insert : MapCheckpoints → Int → uint256 → MapCheckpoints
  | [], k, v => [(k, v)]
  | (k0, v0) :: rest, k, v =>
    if k < k0 then (k, v) :: (k0, v0) :: rest
    else if k = k0 then (k0, v0) :: rest
    else (k0, v0) :: MapCheckpoints.insert rest k v

/-- The map built by `boost::assign::map_list_of (k1, v1) (k2, v2) ...`. -/
def map_list_of (entries : List (Int × uint256)) : MapCheckpoints :=
  entries.foldl (fun m e => MapCheckpoints.insert m e.1 e.2) []

/-- Lookup `std::map::find`: the value stored under the key, `none` for `end()`. -/
def MapCheckpoints.find : MapCheckpoints → Int → Option uint256
  | [], _ => none
  | (k0, v0) :: rest, k => if k = k0 then some v0 else MapCheckpoints.find rest k

/-- The entry `*rbegin()`, the one of greatest key; `none` when the map is empty and
the dereference is undefined. -/
def MapCheckpoints.rbegin (m : MapCheckpoints) : Option (Int × uint256) :=
  m.getLast?

/-- How many times slower transactions after the last checkpoint are expected to be. -/
def fSigcheckVerificationFactor : ℚ := 5

/-- The record `CCheckpointData`. -/
structure CCheckpointData where
  /-- The checkpoint table. -/
  mapCheckpoints : MapCheckpoints
  /-- UNIX timestamp of the last checkpoint block. -/
  nTimeLastCheckpoint : Int
  /-- Total number of transactions between genesis and the last checkpoint. -/
  nTransactionsLastCheckpoint : Int
  /-- Estimated number of transactions per day after the last checkpoint. -/
  fTransactionsPerDay : ℚ

/-- Main-network checkpoint table. -/
def mapCheckpoints : MapCheckpoints :=
  map_list_of
    [ (0, 0x000000008afd70438709390e1a1b4e64c81437ffb244d785b7d6029d7b1ac95e),
      (10000, 0x000000000000125fd54be59819f8cef68167bb1b064517a7d35c1c73e7a8c6f3),
      (25000, 0x0000000000002e1eb82c917aec77ae62d95042dc65351593d6c5e167a229c3d8),
      (34000, 0x000000000001a77d7352b9775bd818b7056fd34c8f63952170a8d1673acc6562),
      (55000, 0x000000000000d03bcb0e927a6d65757ed27eb2dffca86d0640ebf1b291051df5),
      (75000, 0x0000000000000346a0dc1f7ed454755546d4f77b9f41d46821df1f2c5cd57b41),
      (87000, 0x00000000000029b187a4a87d719881f1a994e668e4d5a4ab059740e0a7e54bd5),
      (104461, 0x0000000000001109eef20731db900bc94b26c9fbbdd124724935dcf5512dbcdd),
      (110000, 0x0000000000002fe1681e61788ffc3d82a18fcf15de2ee92c866730dfd7e35098),
      (124521, 0x00000000000016850a96fb10bf6d5d920ae3ca7b55b6d72e54cfd3cd989df340),
      (141912, 0x0000000000000a681fd1083e8e734cf3c211826bbd678a3a7a56786d8df4e3b5),
      (145101, 0x00000000000004594ad16a99c360b29d50a2356b3319b7da98edcc917dd78e4b),
      (146109, 0x00000000000004cee6fc9f080fe4d0e102102c9049f8ebde5c1e3e922992410b) ]

/-- Main-network dataset `data`. -/
def data : CCheckpointData where
  mapCheckpoints := mapCheckpoints
  nTimeLastCheckpoint := 1484138400
  nTransactionsLastCheckpoint := 185062
  fTransactionsPerDay := 5000

/-- Test-network checkpoint table. -/
def mapCheckpointsTestnet : MapCheckpoints :=
  map_list_of
    [ (546, 0x000000002a936ca763904c3c35fce2f3556c559c0214345d31b1bcebf76acb70) ]

/-- Test-network dataset `dataTestnet`. -/
def dataTestnet : CCheckpointData where
  mapCheckpoints := mapCheckpointsTestnet
  nTimeLastCheckpoint := 1338180505
  nTransactionsLastCheckpoint := 16341
  fTransactionsPerDay := 300

/-- The selector `Checkpoints()`: the dataset of the network named by `fTestNet`. -/
def Checkpoints (fTestNet : Bool) : CCheckpointData :=
  if fTestNet then dataTestnet else data

/-! ## CheckBlock -/

/-- The predicate `CheckBlock(nHeight, hash)`. -/
def CheckBlock (fCheckpoints fTestNet : Bool) (nHeight : Int) (hash : uint256) : Bool :=
  if !fCheckpoints then true
  else
    let checkpoints := (Checkpoints fTestNet).mapCheckpoints
    match checkpoints.find nHeight with
    | none => true
    | some pinned => hash == pinned

/-! ## GuessVerificationProgress -/

/-- The fields of `CBlockIndex` the estimator reads. The class is declared in `main.h`,
outside the file at hand; both fields are integers. -/
structure CBlockIndex where
  /-- Number of transactions in the chain up to and including this block. -/
  nChainTx : Int
  /-- Timestamp of the block. -/
  nTime : Int
deriving DecidableEq

/-- A `double` result: a finite number read exactly (the two zeros are one value),
an infinity with its sign, or NaN. -/
inductive double where
  | finite (q : ℚ)
  | infinity (negative : Bool)
  | nan
deriving DecidableEq

/-- IEEE division `a / b` of two finite numbers whose zero denominator is `+0.0`, the
zero a sum of finite numbers rounds to: a nonzero dividend over zero is the infinity
of its sign, and zero over zero is NaN. -/
def fdiv (a b : ℚ) : double :=
  if b = 0 then
    if a = 0 then double.nan else double.infinity (decide (a < 0))
  else double.finite (a / b)

/-- The comparison `x <= y` of two `double` values; every comparison with NaN is
false. -/
def double.le : double → double → Prop
  | double.finite a, double.finite b => a ≤ b
  | double.finite _, double.infinity negative => negative = false
  | double.infinity negative, double.finite _ => negative = true
  | double.infinity n1, double.infinity n2 => n1 = true ∨ n2 = false
  | _, _ => False

instance double.decidableLe (x y : double) : Decidable (double.le x y) :=
  match x, y with
  | double.finite a, double.finite b => inferInstanceAs (Decidable (a ≤ b))
  | double.finite _, double.infinity negative => inferInstanceAs (Decidable (negative = false))
  | double.infinity negative, double.finite _ => inferInstanceAs (Decidable (negative = true))
  | double.infinity n1, double.infinity n2 =>
    inferInstanceAs (Decidable (n1 = true ∨ n2 = false))
  | double.nan, _ => isFalse (fun h => by cases h)
  | double.finite _, double.nan => isFalse (fun h => by cases h)
  | double.infinity _, double.nan => isFalse (fun h => by cases h)

/-- Membership of `[0.0, 1.0]`: a finite value between the two bounds. -/
def double.inUnitInterval : double → Prop
  | double.finite q => 0 ≤ q ∧ q ≤ 1
  | _ => False

instance double.decidableInUnitInterval (x : double) : Decidable (double.inUnitInterval x) :=
  match x with
  | double.finite q => inferInstanceAs (Decidable (0 ≤ q ∧ q ≤ 1))
  | double.infinity _ => isFalse (fun h => by cases h)
  | double.nan => isFalse (fun h => by cases h)

/-- The pair `(fWorkBefore, fWorkAfter)` at the end of the two branches of
`GuessVerificationProgress`. -/
def fWork (data : CCheckpointData) (nNow : Int) (pindex : CBlockIndex) : ℚ × ℚ :=
  if pindex.nChainTx ≤ data.nTransactionsLastCheckpoint then
    let nCheapBefore : ℚ := (pindex.nChainTx : Int)
    let nCheapAfter : ℚ := (data.nTransactionsLastCheckpoint - pindex.nChainTx : Int)
    let nExpensiveAfter : ℚ :=
      ((nNow - data.nTimeLastCheckpoint : Int) : ℚ) / 86400 * data.fTransactionsPerDay
    (nCheapBefore, nCheapAfter + nExpensiveAfter * fSigcheckVerificationFactor)
  else
    let nCheapBefore : ℚ := (data.nTransactionsLastCheckpoint : Int)
    let nExpensiveBefore : ℚ := (pindex.nChainTx - data.nTransactionsLastCheckpoint : Int)
    let nExpensiveAfter : ℚ :=
      ((nNow - pindex.nTime : Int) : ℚ) / 86400 * data.fTransactionsPerDay
    (nCheapBefore + nExpensiveBefore * fSigcheckVerificationFactor,
      nExpensiveAfter * fSigcheckVerificationFactor)

/-- The body of `GuessVerificationProgress` after `data` is bound to a dataset. -/
def guessWith (data : CCheckpointData) (nNow : Int) (pindex : Option CBlockIndex) : double :=
  match pindex with
  | none => double.finite 0
  | some idx =>
    let fWorkBefore := (fWork data nNow idx).1
    let fWorkAfter := (fWork data nNow idx).2
    fdiv fWorkBefore (fWorkBefore + fWorkAfter)

/-- The estimator `GuessVerificationProgress(pindex)`, with `data = Checkpoints()`. -/
def GuessVerificationProgress (fTestNet : Bool) (nNow : Int) (pindex : Option CBlockIndex) :
    double :=
  guessWith (Checkpoints fTestNet) nNow pindex

/-! ## GetTotalBlocksEstimate and GetLastCheckpoint -/

/-- The estimate `GetTotalBlocksEstimate()`; `none` stands for the undefined
dereference of `rbegin()` on an empty table. -/
def GetTotalBlocksEstimate (fCheckpoints fTestNet : Bool) : Option Int :=
  if !fCheckpoints then some 0
  else
    let checkpoints := (Checkpoints fTestNet).mapCheckpoints
    (checkpoints.rbegin).map Prod.fst

/-- The type `std::map<uint256, CBlockIndex*>`, read through `find` only: the pointer
stored under a hash is that of the first pair carrying the hash. -/
abbrev BlockIndexMap := List (uint256 × Option CBlockIndex)

/-- Lookup `mapBlockIndex.find(hash)`: the stored pointer, `none` for `end()`. -/
def BlockIndexMap.find (mapBlockIndex : BlockIndexMap) (hash : uint256) :
    Option (Option CBlockIndex) :=
  mapBlockIndex.lookup hash

/-- The loop of `GetLastCheckpoint` over the entries still to visit. -/
def lastCheckpointLoop (mapBlockIndex : BlockIndexMap) :
    List (Int × uint256) → Option CBlockIndex
  | [] => none
  | (_, hash) :: rest =>
    match mapBlockIndex.find hash with
    | some t => t
    | none => lastCheckpointLoop mapBlockIndex rest

/-- The resolver `GetLastCheckpoint(mapBlockIndex)`: the table is visited from its
last entry to its first (`BOOST_REVERSE_FOREACH`). -/
def GetLastCheckpoint (fCheckpoints fTestNet : Bool) (mapBlockIndex : BlockIndexMap) :
    Option CBlockIndex :=
  if !fCheckpoints then none
  else
    let checkpoints := (Checkpoints fTestNet).mapCheckpoints
    lastCheckpointLoop mapBlockIndex checkpoints.reverse

/-! ## Auxiliary definitions of the development -/

/-- The extrapolated expensive work `(nNow - nFrom)/86400.0*fTransactionsPerDay*5.0`
that both branches of `GuessVerificationProgress` add to the work left, with `nFrom`
the checkpoint time or the block time. -/
def fExtrapolated (data : CCheckpointData) (nNow nFrom : Int) : ℚ :=
  ((nNow : ℚ) - nFrom) / 86400 * data.fTransactionsPerDay * 5

/-- Work done at or below the last checkpoint, in the words of the specification:
`chainTxCount`. -/
def specWorkDoneBelow (chainTxCount : Int) : ℚ :=
  chainTxCount

/-- Work remaining at or below the last checkpoint, in the words of the specification:
`(lastCheckpointTxCount - chainTxCount)
  + 5.0 * ((now - lastCheckpointTime) / 86400 * txPerDayEstimate)`. -/
def specWorkRemainingBelow (data : CCheckpointData) (chainTxCount now : Int) : ℚ :=
  ((data.nTransactionsLastCheckpoint : ℚ) - chainTxCount)
    + 5 * (((now : ℚ) - data.nTimeLastCheckpoint) / 86400 * data.fTransactionsPerDay)

/-- Work done above the last checkpoint, in the words of the specification:
`lastCheckpointTxCount + 5.0 * (chainTxCount - lastCheckpointTxCount)`. -/
def specWorkDoneAbove (data : CCheckpointData) (chainTxCount : Int) : ℚ :=
  (data.nTransactionsLastCheckpoint : ℚ)
    + 5 * ((chainTxCount : ℚ) - data.nTransactionsLastCheckpoint)

/-- Work remaining above the last checkpoint, in the words of the specification:
`5.0 * ((now - blockTime) / 86400 * txPerDayEstimate)`. -/
def specWorkRemainingAbove (data : CCheckpointData) (blockTime now : Int) : ℚ :=
  5 * (((now : ℚ) - blockTime) / 86400 * data.fTransactionsPerDay)

/-- A sufficient test that binary64 holds a rational exactly: an integer of magnitude
below `2^53` over a power of two no greater than `2^64`. An IEEE operation whose
exact result passes the test returns that result, in every rounding mode. -/
def isBinary64 (q : ℚ) : Bool :=
  decide (q.num.natAbs < 2 ^ 53) && decide (q.den &&& (q.den - 1) = 0)
    && decide (q.den ≤ 2 ^ 64)

/-- A list holding every finite value the `double` variables and temporaries of
`GuessVerificationProgress` take in exact arithmetic, whichever branch runs: the
converted integers, the extrapolation after each operation, the weighted count, the
two work terms, the denominator and, when the denominator is not zero, the
quotient. -/
def fTrace (data : CCheckpointData) (nNow : Int) (pindex : CBlockIndex) : List ℚ :=
  let fWorkBefore := (fWork data nNow pindex).1
  let fWorkAfter := (fWork data nNow pindex).2
  let nFrom :=
    if pindex.nChainTx ≤ data.nTransactionsLastCheckpoint then data.nTimeLastCheckpoint
    else pindex.nTime
  let nElapsed : ℚ := (nNow - nFrom : Int)
  [ (pindex.nChainTx : ℚ), (data.nTransactionsLastCheckpoint : ℚ),
    ((data.nTransactionsLastCheckpoint - pindex.nChainTx : Int) : ℚ),
    nElapsed, nElapsed / 86400, nElapsed / 86400 * data.fTransactionsPerDay,
    nElapsed / 86400 * data.fTransactionsPerDay * fSigcheckVerificationFactor,
    ((pindex.nChainTx - data.nTransactionsLastCheckpoint : Int) : ℚ)
      * fSigcheckVerificationFactor,
    fWorkBefore, fWorkAfter, fWorkBefore + fWorkAfter ]
    ++ (if fWorkBefore + fWorkAfter = 0 then []
        else [fWorkBefore / (fWorkBefore + fWorkAfter)])

/-- The block index with the hashes of heights 0 and 10000 of the main network and no
other. -/
def mapBlockIndexTwo : BlockIndexMap :=
  [ (0x000000008afd70438709390e1a1b4e64c81437ffb244d785b7d6029d7b1ac95e,
      some { nChainTx := 1, nTime := 1231006505 }),
    (0x000000000000125fd54be59819f8cef68167bb1b064517a7d35c1c73e7a8c6f3,
      some { nChainTx := 10091, nTime := 1238000000 }) ]

/-- A block index with the hashes of heights 0, 10000 and 146109 of the main network,
the last checkpoint not being listed last. -/
def mapBlockIndexThree : BlockIndexMap :=
  [ (0x000000008afd70438709390e1a1b4e64c81437ffb244d785b7d6029d7b1ac95e,
      some { nChainTx := 1, nTime := 1231006505 }),
    (0x00000000000004cee6fc9f080fe4d0e102102c9049f8ebde5c1e3e922992410b,
      some { nChainTx := 185062, nTime := 1484138400 }),
    (0x000000000000125fd54be59819f8cef68167bb1b064517a7d35c1c73e7a8c6f3,
      some { nChainTx := 10091, nTime := 1238000000 }) ]

/-! ## Binary64 rounding -/

/-- The product `x * 2^k` for an integer `k` of either sign. -/
def scale2 (x : ℚ) (k : Int) : ℚ :=
  if 0 ≤ k then x * ((2 ^ k.toNat : Nat) : ℚ) else x / ((2 ^ (-k).toNat : Nat) : ℚ)

/-- Halving `n` until it is below 2, at most `fuel` times, and counting the halvings. -/
def log2Fuel : Nat → Nat → Nat
  | 0, _ => 0
  | fuel + 1, n => if n < 2 then 0 else log2Fuel fuel (n / 2) + 1

/-- The position of the leading bit of a positive natural number: the `k` with
`2^k ≤ n < 2^(k+1)`. -/
def bitLog2 (n : Nat) : Nat :=
  log2Fuel n n

/-- The binary exponent of a non-zero rational: the integer `e` with
`2^e ≤ |x| < 2^(e+1)`, found from the leading bits of numerator and denominator. -/
def ilog2 (x : ℚ) : Int :=
  let e0 : Int := (bitLog2 x.num.natAbs : Int) - (bitLog2 x.den : Int)
  if scale2 1 e0 ≤ |x| then e0 else e0 - 1

/-- Rounding of a rational to the nearest integer, a tie going to the even one. -/
def roundHalfEven (y : ℚ) : Int :=
  if y - ⌊y⌋ < 1 / 2 then ⌊y⌋
  else if 1 / 2 < y - ⌊y⌋ then ⌊y⌋ + 1
  else if ⌊y⌋ % 2 = 0 then ⌊y⌋
  else ⌊y⌋ + 1

/-- The binary64 number nearest to `x`, ties to even: `x` is scaled so that its
magnitude lies in `[2^52, 2^53)`, rounded to an integer and scaled back. The exponent
is not bounded: no value of `GuessVerificationProgress` on machine integers reaches
the overflow or the subnormal range. -/
def round64 (x : ℚ) : ℚ :=
  if x = 0 then 0
  else scale2 (roundHalfEven (scale2 x (52 - ilog2 x))) (ilog2 x - 52)

/-- The pair `(fWorkBefore, fWorkAfter)` when every conversion to `double` and every
`double` operation is followed by the rounding `rnd`. -/
def fWorkR (rnd : ℚ → ℚ) (data : CCheckpointData) (nNow : Int) (pindex : CBlockIndex) :
    ℚ × ℚ :=
  if pindex.nChainTx ≤ data.nTransactionsLastCheckpoint then
    let nCheapBefore : ℚ := rnd (pindex.nChainTx : Int)
    let nCheapAfter : ℚ := rnd (data.nTransactionsLastCheckpoint - pindex.nChainTx : Int)
    let nExpensiveAfter : ℚ :=
      rnd (rnd (rnd ((nNow - data.nTimeLastCheckpoint : Int) : ℚ) / 86400)
        * data.fTransactionsPerDay)
    (nCheapBefore, rnd (nCheapAfter + rnd (nExpensiveAfter * fSigcheckVerificationFactor)))
  else
    let nCheapBefore : ℚ := rnd (data.nTransactionsLastCheckpoint : Int)
    let nExpensiveBefore : ℚ :=
      rnd (pindex.nChainTx - data.nTransactionsLastCheckpoint : Int)
    let nExpensiveAfter : ℚ :=
      rnd (rnd (rnd ((nNow - pindex.nTime : Int) : ℚ) / 86400) * data.fTransactionsPerDay)
    (rnd (nCheapBefore + rnd (nExpensiveBefore * fSigcheckVerificationFactor)),
      rnd (nExpensiveAfter * fSigcheckVerificationFactor))

/-- The body of `GuessVerificationProgress` under the rounding `rnd`. -/
def guessWithR (rnd : ℚ → ℚ) (data : CCheckpointData) (nNow : Int)
    (pindex : Option CBlockIndex) : double :=
  match pindex with
  | none => double.finite 0
  | some idx =>
    let fWorkBefore := (fWorkR rnd data nNow idx).1
    let fWorkAfter := (fWorkR rnd data nNow idx).2
    if rnd (fWorkBefore + fWorkAfter) = 0 then
      fdiv fWorkBefore 0
    else double.finite (rnd (fWorkBefore / rnd (fWorkBefore + fWorkAfter)))

/-- The estimator `GuessVerificationProgress(pindex)` in binary64 arithmetic. -/
def GuessVerificationProgress64 (fTestNet : Bool) (nNow : Int)
    (pindex : Option CBlockIndex) : double :=
  guessWithR round64 (Checkpoints fTestNet) nNow pindex

/-- A rounding whose relative error is at most `u`. -/
def roundsWithin (u : ℚ) (rnd : ℚ → ℚ) : Prop :=
  ∀ x : ℚ, |rnd x - x| ≤ u * |x|

/-- The computed value `y` is the exact value `x` up to `k` roundings of relative
error `u`. -/
def approx (u : ℚ) (k : Nat) (x y : ℚ) : Prop :=
  x * (1 - u) ^ k ≤ y ∧ y ≤ x * (1 + u) ^ k

/-! # Theorems -/

/-! ## The tables -/

/-- Both tables are in strictly increasing key order. -/
theorem mapCheckpoints_pairwise (fTestNet : Bool) :
    ((Checkpoints fTestNet).mapCheckpoints).Pairwise (fun a b => a.1 < b.1) := by
  cases fTestNet <;> decide

/-- A key that `find` resolves is paired with the found value in the table. -/
theorem MapCheckpoints.mem_of_find (m : MapCheckpoints) (k : Int) (v : uint256)
    (h : m.find k = some v) : (k, v) ∈ m := by
  induction m with
  | nil => simp [MapCheckpoints.find] at h
  | cons e rest ih =>
    obtain ⟨k0, v0⟩ := e
    by_cases hk : k = k0
    · simp [MapCheckpoints.find, hk] at h
      simp [hk, h]
    · simp [MapCheckpoints.find, hk] at h
      exact List.mem_cons_of_mem _ (ih h)

/-- In a table in strictly increasing key order, `find` resolves every listed pair. -/
theorem MapCheckpoints.find_of_mem (m : MapCheckpoints)
    (hm : m.Pairwise (fun a b => a.1 < b.1)) (k : Int) (v : uint256)
    (h : (k, v) ∈ m) : m.find k = some v := by
  induction m with
  | nil => simp at h
  | cons e rest ih =>
    obtain ⟨k0, v0⟩ := e
    rw [List.pairwise_cons] at hm
    rcases List.mem_cons.1 h with heq | hmem
    · simp only [Prod.mk.injEq] at heq
      simp [MapCheckpoints.find, heq.1, heq.2]
    · have hlt : k0 < k := hm.1 (k, v) hmem
      have hne : k ≠ k0 := by omega
      simp [MapCheckpoints.find, hne, ih hm.2 hmem]

/-- No negative height and no height above 146109 has an entry, on either network. -/
theorem MapCheckpoints.find_outside (fTestNet : Bool) (nHeight : Int)
    (h : nHeight < 0 ∨ 146109 < nHeight) :
    (Checkpoints fTestNet).mapCheckpoints.find nHeight = none := by
  cases hfind : (Checkpoints fTestNet).mapCheckpoints.find nHeight with
  | none => rfl
  | some v =>
    exfalso
    have hmem := MapCheckpoints.mem_of_find _ _ _ hfind
    have hkeys : ∀ e ∈ (Checkpoints fTestNet).mapCheckpoints, 0 ≤ e.1 ∧ e.1 ≤ 146109 := by
      cases fTestNet <;> decide
    have hb := hkeys _ hmem
    simp only at hb
    omega

/-! ## CheckBlock -/

/-- Claim C1. With enforcement enabled, on either network, at a height that has an
entry in the active table, `CheckBlock` accepts a hash exactly when it is the hash
pinned at that height. -/
theorem CheckBlock_pinned_iff (fTestNet : Bool) (nHeight : Int) (pinned hash : uint256)
    (hfind : (Checkpoints fTestNet).mapCheckpoints.find nHeight = some pinned) :
    CheckBlock true fTestNet nHeight hash = true ↔ hash = pinned := by
  simp [CheckBlock, hfind]

/-- Claim C1 at height 10000 of the main network: the pinned hash is accepted, and the
hash one above it is accepted only if it were the pinned hash. -/
theorem CheckBlock_pinned_iff_witness :
    (Checkpoints false).mapCheckpoints.find 10000
        = some 0x000000000000125fd54be59819f8cef68167bb1b064517a7d35c1c73e7a8c6f3 ∧
      (CheckBlock true false 10000
          0x000000000000125fd54be59819f8cef68167bb1b064517a7d35c1c73e7a8c6f4 = true ↔
        0x000000000000125fd54be59819f8cef68167bb1b064517a7d35c1c73e7a8c6f4
          = 0x000000000000125fd54be59819f8cef68167bb1b064517a7d35c1c73e7a8c6f3) :=
  ⟨by decide, CheckBlock_pinned_iff false 10000 _ _ (by decide)⟩

/-- Claim C2. With enforcement enabled, on either network, at a height without an
entry in the active table (negative heights and heights above the last checkpoint
included), `CheckBlock` accepts every hash. -/
theorem CheckBlock_absent (fTestNet : Bool) (nHeight : Int) (hash : uint256)
    (hfind : (Checkpoints fTestNet).mapCheckpoints.find nHeight = none) :
    CheckBlock true fTestNet nHeight hash = true := by
  simp [CheckBlock, hfind]

/-- Claim C2 on the main network at height 5000, between two checkpoints, at the
negative height -1 and at height 146110, above the last checkpoint. -/
theorem CheckBlock_absent_witness :
    (Checkpoints false).mapCheckpoints.find 5000 = none ∧
      CheckBlock true false 5000 12345 = true ∧
      CheckBlock true false (-1) 12345 = true ∧
      CheckBlock true false 146110 12345 = true :=
  ⟨by decide, CheckBlock_absent false 5000 12345 (by decide),
    CheckBlock_absent false (-1) 12345 (by decide),
    CheckBlock_absent false 146110 12345 (by decide)⟩

/-- Claim C3. With enforcement disabled, `CheckBlock` accepts every height and every
hash on either network. -/
theorem CheckBlock_disabled (fTestNet : Bool) (nHeight : Int) (hash : uint256) :
    CheckBlock false fTestNet nHeight hash = true := by
  simp [CheckBlock]

/-! ## GetLastCheckpoint -/

/-- The loop over entries in strictly decreasing key order returns the pointer stored
under the hash of the first entry whose hash is known. -/
theorem lastCheckpointLoop_highest (mapBlockIndex : BlockIndexMap)
    (l : List (Int × uint256)) (hl : l.Pairwise (fun a b => b.1 < a.1))
    (h : Int) (H : uint256) (t : Option CBlockIndex) (hmem : (h, H) ∈ l)
    (hknown : mapBlockIndex.find H = some t)
    (habove : ∀ e ∈ l, h < e.1 → mapBlockIndex.find e.2 = none) :
    lastCheckpointLoop mapBlockIndex l = t := by
  induction l with
  | nil => simp at hmem
  | cons e rest ih =>
    obtain ⟨k0, v0⟩ := e
    rw [List.pairwise_cons] at hl
    rcases List.mem_cons.1 hmem with heq | hrest
    · simp only [Prod.mk.injEq] at heq
      simp [lastCheckpointLoop, ← heq.2, hknown]
    · have hlt : h < k0 := hl.1 (h, H) hrest
      have hnone : mapBlockIndex.find v0 = none :=
        habove (k0, v0) (List.mem_cons_self _ _) hlt
      simp only [lastCheckpointLoop, hnone]
      exact ih hl.2 hrest (fun e he hlt => habove e (List.mem_cons_of_mem _ he) hlt)

/-- The loop finds nothing when no hash of the visited entries is known. -/
theorem lastCheckpointLoop_none (mapBlockIndex : BlockIndexMap)
    (l : List (Int × uint256))
    (hnone : ∀ e ∈ l, mapBlockIndex.find e.2 = none) :
    lastCheckpointLoop mapBlockIndex l = none := by
  induction l with
  | nil => rfl
  | cons e rest ih =>
    obtain ⟨k0, v0⟩ := e
    have h0 : mapBlockIndex.find v0 = none := hnone (k0, v0) (List.mem_cons_self _ _)
    simp only [lastCheckpointLoop, h0]
    exact ih (fun e he => hnone e (List.mem_cons_of_mem _ he))

/-- Claim C4. With enforcement enabled, on either network, if the checkpoint
`(h, H)` of the active table has its hash among the keys of `mapBlockIndex` and no
checkpoint of greater height has, `GetLastCheckpoint` returns the pointer stored
under `H`. -/
theorem GetLastCheckpoint_highest (fTestNet : Bool) (mapBlockIndex : BlockIndexMap)
    (h : Int) (H : uint256) (t : Option CBlockIndex)
    (hmem : (h, H) ∈ (Checkpoints fTestNet).mapCheckpoints)
    (hknown : mapBlockIndex.find H = some t)
    (habove : ∀ e ∈ (Checkpoints fTestNet).mapCheckpoints, h < e.1 →
      mapBlockIndex.find e.2 = none) :
    GetLastCheckpoint true fTestNet mapBlockIndex = t := by
  have hsorted := mapCheckpoints_pairwise fTestNet
  simp only [GetLastCheckpoint, Bool.not_true, Bool.false_eq_true, if_false]
  apply lastCheckpointLoop_highest mapBlockIndex _ _ h H t
  · exact List.mem_reverse.2 hmem
  · exact hknown
  · intro e he hlt
    exact habove e (List.mem_reverse.1 he) hlt
  · exact List.pairwise_reverse.2 hsorted

/-- Claim C4 on the main network, with the hashes of heights 0 and 10000 known and no
other: the entry stored for height 10000 is returned. -/
theorem GetLastCheckpoint_highest_witness :
    ((10000, 0x000000000000125fd54be59819f8cef68167bb1b064517a7d35c1c73e7a8c6f3)
        ∈ (Checkpoints false).mapCheckpoints) ∧
      mapBlockIndexTwo.find
          0x000000000000125fd54be59819f8cef68167bb1b064517a7d35c1c73e7a8c6f3
        = some (some { nChainTx := 10091, nTime := 1238000000 }) ∧
      (∀ e ∈ (Checkpoints false).mapCheckpoints, 10000 < e.1 →
        mapBlockIndexTwo.find e.2 = none) ∧
      GetLastCheckpoint true false mapBlockIndexTwo
        = some { nChainTx := 10091, nTime := 1238000000 } :=
  ⟨by decide, by decide, by decide,
    GetLastCheckpoint_highest false mapBlockIndexTwo 10000
      0x000000000000125fd54be59819f8cef68167bb1b064517a7d35c1c73e7a8c6f3 _
      (by decide) (by decide) (by decide)⟩

/-- Claim C5. `GetLastCheckpoint` returns `NULL` when enforcement is disabled,
whatever `mapBlockIndex` holds, and, with enforcement enabled, when no checkpoint
hash of the active table is a key of `mapBlockIndex`. -/
theorem GetLastCheckpoint_none (fCheckpoints fTestNet : Bool)
    (mapBlockIndex : BlockIndexMap)
    (h : fCheckpoints = false ∨
      ∀ e ∈ (Checkpoints fTestNet).mapCheckpoints, mapBlockIndex.find e.2 = none) :
    GetLastCheckpoint fCheckpoints fTestNet mapBlockIndex = none := by
  cases fCheckpoints with
  | false => simp [GetLastCheckpoint]
  | true =>
    rcases h with h | h
    · exact absurd h (by decide)
    · simp only [GetLastCheckpoint, Bool.not_true, Bool.false_eq_true, if_false]
      exact lastCheckpointLoop_none mapBlockIndex _
        (fun e he => h e (List.mem_reverse.1 he))

/-- Claim C5 twice on the main network: enforcement disabled with the genesis hash
known, and enforcement enabled with only a hash that is no checkpoint known. -/
theorem GetLastCheckpoint_none_witness :
    GetLastCheckpoint false false
        [ (0x000000008afd70438709390e1a1b4e64c81437ffb244d785b7d6029d7b1ac95e,
            some { nChainTx := 1, nTime := 1231006505 }) ] = none ∧
      GetLastCheckpoint true false
        [ (12345, some { nChainTx := 7, nTime := 1231006505 }) ] = none :=
  ⟨GetLastCheckpoint_none false false _ (Or.inl rfl),
    GetLastCheckpoint_none true false _ (Or.inr (by decide))⟩

/-! ## GetTotalBlocksEstimate -/

/-- Claim C6. `GetTotalBlocksEstimate` returns 0 when enforcement is disabled, and
otherwise the greatest height of the active table: 146109 on the main network and
546 on the test network. -/
theorem GetTotalBlocksEstimate_value :
    (∀ fTestNet, GetTotalBlocksEstimate false fTestNet = some 0) ∧
      GetTotalBlocksEstimate true false = some 146109 ∧
      GetTotalBlocksEstimate true true = some 546 ∧
      ∀ fTestNet, ∃ nHeight,
        GetTotalBlocksEstimate true fTestNet = some nHeight ∧
        (∃ hash, (nHeight, hash) ∈ (Checkpoints fTestNet).mapCheckpoints) ∧
        ∀ e ∈ (Checkpoints fTestNet).mapCheckpoints, e.1 ≤ nHeight := by
  refine ⟨fun fTestNet => by simp [GetTotalBlocksEstimate], by decide, by decide, ?_⟩
  intro fTestNet
  cases fTestNet with
  | false =>
    exact ⟨146109, by decide,
      ⟨0x00000000000004cee6fc9f080fe4d0e102102c9049f8ebde5c1e3e922992410b, by decide⟩,
      by decide⟩
  | true =>
    exact ⟨546, by decide,
      ⟨0x000000002a936ca763904c3c35fce2f3556c559c0214345d31b1bcebf76acb70, by decide⟩,
      by decide⟩

/-! ## GuessVerificationProgress: auxiliary facts -/

/-- The extrapolated work is non-negative when the interval is. -/
theorem fExtrapolated_nonneg (data : CCheckpointData) (nNow nFrom : Int)
    (hrate : 0 ≤ data.fTransactionsPerDay) (h : nFrom ≤ nNow) :
    0 ≤ fExtrapolated data nNow nFrom := by
  have h1 : (0 : ℚ) ≤ (nNow : ℚ) - nFrom := by
    have : (nFrom : ℚ) ≤ nNow := by exact_mod_cast h
    linarith
  unfold fExtrapolated
  positivity

/-- The extrapolated work shrinks as the start of the interval moves forward. -/
theorem fExtrapolated_mono (data : CCheckpointData) (nNow t1 t2 : Int)
    (hrate : 0 ≤ data.fTransactionsPerDay) (h : t1 ≤ t2) :
    fExtrapolated data nNow t2 ≤ fExtrapolated data nNow t1 := by
  have h1 : (t1 : ℚ) ≤ t2 := by exact_mod_cast h
  unfold fExtrapolated
  have h2 : ((nNow : ℚ) - t2) / 86400 ≤ ((nNow : ℚ) - t1) / 86400 := by
    apply div_le_div_of_nonneg_right _ (by norm_num)
    linarith
  have h3 := mul_le_mul_of_nonneg_right h2 hrate
  linarith

/-- At or below the last checkpoint: the result is `nChainTx` over the checkpoint count
plus the work extrapolated from the checkpoint time. -/
theorem guessWith_below (data : CCheckpointData) (nNow : Int) (idx : CBlockIndex)
    (h : idx.nChainTx ≤ data.nTransactionsLastCheckpoint) :
    guessWith data nNow (some idx) =
      fdiv (idx.nChainTx : ℚ)
        ((data.nTransactionsLastCheckpoint : ℚ)
          + fExtrapolated data nNow data.nTimeLastCheckpoint) := by
  simp only [guessWith, fWork, if_pos h, fExtrapolated, fSigcheckVerificationFactor]
  congr 1
  push_cast
  ring

/-- Above the last checkpoint: the weighted count over itself plus the work
extrapolated from the block time. -/
theorem guessWith_above (data : CCheckpointData) (nNow : Int) (idx : CBlockIndex)
    (h : data.nTransactionsLastCheckpoint < idx.nChainTx) :
    guessWith data nNow (some idx) =
      fdiv ((data.nTransactionsLastCheckpoint : ℚ)
          + ((idx.nChainTx : ℚ) - data.nTransactionsLastCheckpoint) * 5)
        ((data.nTransactionsLastCheckpoint : ℚ)
          + ((idx.nChainTx : ℚ) - data.nTransactionsLastCheckpoint) * 5
          + fExtrapolated data nNow idx.nTime) := by
  have h' : ¬ idx.nChainTx ≤ data.nTransactionsLastCheckpoint := by omega
  simp only [guessWith, fWork, if_neg h', fExtrapolated, fSigcheckVerificationFactor]
  push_cast
  ring_nf

/-- Division by a positive number is the finite quotient. -/
theorem fdiv_pos (a b : ℚ) (hb : 0 < b) : fdiv a b = double.finite (a / b) := by
  simp [fdiv, ne_of_gt hb]

/-- Both built-in datasets have a positive transaction count and rate. -/
theorem Checkpoints_pos (fTestNet : Bool) :
    0 < (Checkpoints fTestNet).nTransactionsLastCheckpoint ∧
      0 ≤ (Checkpoints fTestNet).fTransactionsPerDay := by
  cases fTestNet <;> simp [Checkpoints, data, dataTestnet]

/-- Bounds of the quotient for a dataset of positive count and non-negative rate. -/
theorem guessWith_unit_interval (data : CCheckpointData) (nNow : Int) (idx : CBlockIndex)
    (hN : 0 < data.nTransactionsLastCheckpoint) (hrate : 0 ≤ data.fTransactionsPerDay)
    (hc : 0 ≤ idx.nChainTx)
    (hbelow : idx.nChainTx ≤ data.nTransactionsLastCheckpoint →
      data.nTimeLastCheckpoint ≤ nNow)
    (habove : data.nTransactionsLastCheckpoint < idx.nChainTx → idx.nTime ≤ nNow) :
    ∃ q, guessWith data nNow (some idx) = double.finite q ∧ 0 ≤ q ∧ q ≤ 1 := by
  have hNq : (0 : ℚ) < data.nTransactionsLastCheckpoint := by exact_mod_cast hN
  have hcq : (0 : ℚ) ≤ idx.nChainTx := by exact_mod_cast hc
  by_cases h : idx.nChainTx ≤ data.nTransactionsLastCheckpoint
  · have hB := fExtrapolated_nonneg data nNow _ hrate (hbelow h)
    have hle : (idx.nChainTx : ℚ) ≤ data.nTransactionsLastCheckpoint := by exact_mod_cast h
    have hden : (0 : ℚ) < (data.nTransactionsLastCheckpoint : ℚ)
        + fExtrapolated data nNow data.nTimeLastCheckpoint := by linarith
    rw [guessWith_below data nNow idx h, fdiv_pos _ _ hden]
    refine ⟨_, rfl, div_nonneg hcq hden.le, ?_⟩
    rw [div_le_one hden]
    linarith
  · have h' : data.nTransactionsLastCheckpoint < idx.nChainTx := by omega
    have hA := fExtrapolated_nonneg data nNow _ hrate (habove h')
    have hlt : (data.nTransactionsLastCheckpoint : ℚ) < idx.nChainTx := by exact_mod_cast h'
    have hW : (0 : ℚ) < (data.nTransactionsLastCheckpoint : ℚ)
        + ((idx.nChainTx : ℚ) - data.nTransactionsLastCheckpoint) * 5 := by nlinarith
    have hden : (0 : ℚ) < (data.nTransactionsLastCheckpoint : ℚ)
        + ((idx.nChainTx : ℚ) - data.nTransactionsLastCheckpoint) * 5
        + fExtrapolated data nNow idx.nTime := by linarith
    rw [guessWith_above data nNow idx h', fdiv_pos _ _ hden]
    refine ⟨_, rfl, div_nonneg hW.le hden.le, ?_⟩
    rw [div_le_one hden]
    linarith

/-- Monotonicity in `nChainTx` for a dataset of positive count and non-negative rate,
when the block time lies between the checkpoint time and `nNow`. -/
theorem guessWith_monotone (data : CCheckpointData) (nNow nTime c1 c2 : Int)
    (hN : 0 < data.nTransactionsLastCheckpoint) (hrate : 0 ≤ data.fTransactionsPerDay)
    (ht : data.nTimeLastCheckpoint ≤ nTime) (hnow : nTime ≤ nNow) (hc : c1 ≤ c2) :
    double.le (guessWith data nNow (some { nChainTx := c1, nTime := nTime }))
      (guessWith data nNow (some { nChainTx := c2, nTime := nTime })) := by
  have hNq : (0 : ℚ) < data.nTransactionsLastCheckpoint := by exact_mod_cast hN
  have hcq : (c1 : ℚ) ≤ c2 := by exact_mod_cast hc
  have hA := fExtrapolated_nonneg data nNow nTime hrate hnow
  have hAB := fExtrapolated_mono data nNow _ _ hrate ht
  have hB : 0 ≤ fExtrapolated data nNow data.nTimeLastCheckpoint := le_trans hA hAB
  have hdenB : (0 : ℚ) < (data.nTransactionsLastCheckpoint : ℚ)
      + fExtrapolated data nNow data.nTimeLastCheckpoint := by linarith
  by_cases h2 : c2 ≤ data.nTransactionsLastCheckpoint
  · have h1 : c1 ≤ data.nTransactionsLastCheckpoint := le_trans hc h2
    rw [guessWith_below data nNow ⟨c1, nTime⟩ h1, guessWith_below data nNow ⟨c2, nTime⟩ h2,
      fdiv_pos _ _ hdenB, fdiv_pos _ _ hdenB]
    exact div_le_div_of_nonneg_right hcq hdenB.le
  · have h2' : data.nTransactionsLastCheckpoint < c2 := by omega
    have h2q : (data.nTransactionsLastCheckpoint : ℚ) < c2 := by exact_mod_cast h2'
    have hW2 : (0 : ℚ) < (data.nTransactionsLastCheckpoint : ℚ)
        + ((c2 : ℚ) - data.nTransactionsLastCheckpoint) * 5 := by nlinarith
    have hden2 : (0 : ℚ) < (data.nTransactionsLastCheckpoint : ℚ)
        + ((c2 : ℚ) - data.nTransactionsLastCheckpoint) * 5
        + fExtrapolated data nNow nTime := by linarith
    rw [guessWith_above data nNow ⟨c2, nTime⟩ h2', fdiv_pos _ _ hden2]
    by_cases h1 : c1 ≤ data.nTransactionsLastCheckpoint
    · have h1q : (c1 : ℚ) ≤ data.nTransactionsLastCheckpoint := by exact_mod_cast h1
      rw [guessWith_below data nNow ⟨c1, nTime⟩ h1, fdiv_pos _ _ hdenB]
      show (c1 : ℚ) / _ ≤ _ / _
      rw [div_le_div_iff₀ hdenB hden2]
      nlinarith [mul_nonneg hNq.le hA, mul_nonneg hNq.le hB,
        mul_nonneg (sub_nonneg.2 hAB) hNq.le,
        mul_nonneg (sub_nonneg.2 h2q.le) hB,
        mul_nonneg (sub_nonneg.2 h1q) hden2.le]
    · have h1' : data.nTransactionsLastCheckpoint < c1 := by omega
      have h1q : (data.nTransactionsLastCheckpoint : ℚ) < c1 := by exact_mod_cast h1'
      have hW1 : (0 : ℚ) < (data.nTransactionsLastCheckpoint : ℚ)
          + ((c1 : ℚ) - data.nTransactionsLastCheckpoint) * 5 := by nlinarith
      have hden1 : (0 : ℚ) < (data.nTransactionsLastCheckpoint : ℚ)
          + ((c1 : ℚ) - data.nTransactionsLastCheckpoint) * 5
          + fExtrapolated data nNow nTime := by linarith
      rw [guessWith_above data nNow ⟨c1, nTime⟩ h1', fdiv_pos _ _ hden1]
      show _ / _ ≤ _ / _
      rw [div_le_div_iff₀ hden1 hden2]
      nlinarith [mul_nonneg (sub_nonneg.2 hcq) hA]

/-- With either built-in dataset the denominator `fWorkBefore + fWorkAfter`, read in
exact arithmetic, is not zero, whatever the integers `nNow`, `nChainTx` and `nTime`. -/
theorem fWork_sum_ne_zero (fTestNet : Bool) (nNow : Int) (idx : CBlockIndex) :
    (fWork (Checkpoints fTestNet) nNow idx).1 + (fWork (Checkpoints fTestNet) nNow idx).2
      ≠ 0 := by
  obtain ⟨c, t⟩ := idx
  intro h
  cases fTestNet with
  | false =>
    by_cases hc : c ≤ 185062
    · simp only [fWork, Checkpoints, data, Bool.false_eq_true, if_false, if_pos hc,
        fSigcheckVerificationFactor] at h
      push_cast at h
      have key : ((185062 * 432 + 125 * (nNow - 1484138400) : Int) : ℚ) = 0 := by
        push_cast
        linarith
      have key' : (185062 * 432 + 125 * (nNow - 1484138400) : Int) = 0 := by
        exact_mod_cast key
      omega
    · simp only [fWork, Checkpoints, data, Bool.false_eq_true, if_false, if_neg hc,
        fSigcheckVerificationFactor] at h
      push_cast at h
      have key : ((185062 * 432 + 2160 * (c - 185062) + 125 * (nNow - t) : Int) : ℚ)
          = 0 := by
        push_cast
        linarith
      have key' : (185062 * 432 + 2160 * (c - 185062) + 125 * (nNow - t) : Int) = 0 := by
        exact_mod_cast key
      omega
  | true =>
    by_cases hc : c ≤ 16341
    · simp only [fWork, Checkpoints, dataTestnet, if_true, if_pos hc,
        fSigcheckVerificationFactor] at h
      push_cast at h
      have key : ((16341 * 288 + 5 * (nNow - 1338180505) : Int) : ℚ) = 0 := by
        push_cast
        linarith
      have key' : (16341 * 288 + 5 * (nNow - 1338180505) : Int) = 0 := by
        exact_mod_cast key
      omega
    · simp only [fWork, Checkpoints, dataTestnet, if_true, if_neg hc,
        fSigcheckVerificationFactor] at h
      push_cast at h
      have key : ((16341 * 288 + 1440 * (c - 16341) + 5 * (nNow - t) : Int) : ℚ)
          = 0 := by
        push_cast
        linarith
      have key' : (16341 * 288 + 1440 * (c - 16341) + 5 * (nNow - t) : Int) = 0 := by
        exact_mod_cast key
      omega

/-! ## GuessVerificationProgress: the claims -/

/-- Every value of the run of the main network eight days before the checkpoint time,
for a block with 14938 chain transactions, is held exactly by binary64, so the
`double` computation returns `-1.0` itself. -/
theorem GuessVerificationProgress_below_zero_exact :
    ∀ q ∈ fTrace data 1483447200 { nChainTx := 14938, nTime := 1483447200 },
      isBinary64 q = true := by
  with_unfolding_all decide

/-- The upper bound fails as well, for a block stamped ahead of the clock. On the main
network, a block with 185063 chain transactions whose time is 5400 seconds after
`nNow` gets `185067 / (185067 - 1562.5)`, about `1.0085`; the two operands of the
division are exact in binary64. -/
theorem GuessVerificationProgress_above_one :
    GuessVerificationProgress false 1484200000
        (some { nChainTx := 185063, nTime := 1484205400 })
        = double.finite (370134 / 367009) ∧
      ¬ double.inUnitInterval (GuessVerificationProgress false 1484200000
        (some { nChainTx := 185063, nTime := 1484205400 })) := by
  have h : GuessVerificationProgress false 1484200000
      (some { nChainTx := 185063, nTime := 1484205400 })
      = double.finite (370134 / 367009) := by
    simp [GuessVerificationProgress, guessWith, fWork, Checkpoints, data,
      fSigcheckVerificationFactor, fdiv]
    norm_num
  refine ⟨h, ?_⟩
  rw [h]
  simp only [double.inUnitInterval]
  norm_num

/-- In exact arithmetic the result decreases across the regime boundary when the
block time is before the checkpoint time. On the main network at `nNow = 1484138400`,
the checkpoint time, with block time 24 days earlier, a block with exactly 185062
chain transactions gets `185062 / (185062 + 0) = 1.0` and a block with 185336 gets
`186432 / (186432 + 600000) = 971/4096`, which is smaller. -/
theorem GuessVerificationProgress_not_monotone :
    GuessVerificationProgress false 1484138400
        (some { nChainTx := 185062, nTime := 1482064800 }) = double.finite 1 ∧
      GuessVerificationProgress false 1484138400
        (some { nChainTx := 185336, nTime := 1482064800 }) = double.finite (971 / 4096) ∧
      ¬ double.le
        (GuessVerificationProgress false 1484138400
          (some { nChainTx := 185062, nTime := 1482064800 }))
        (GuessVerificationProgress false 1484138400
          (some { nChainTx := 185336, nTime := 1482064800 })) := by
  have h1 : GuessVerificationProgress false 1484138400
      (some { nChainTx := 185062, nTime := 1482064800 }) = double.finite 1 := by
    simp [GuessVerificationProgress, guessWith, fWork, Checkpoints, data,
      fSigcheckVerificationFactor, fdiv]
  have h2 : GuessVerificationProgress false 1484138400
      (some { nChainTx := 185336, nTime := 1482064800 }) = double.finite (971 / 4096) := by
    simp [GuessVerificationProgress, guessWith, fWork, Checkpoints, data,
      fSigcheckVerificationFactor, fdiv]
    norm_num
  refine ⟨h1, h2, ?_⟩
  rw [h1, h2]
  simp only [double.le]
  norm_num

/-- Every value of the two runs of the main network at the checkpoint time, block
time 24 days earlier, 185062 and 185336 chain transactions, is held exactly by
binary64, so the `double` computation returns `1.0` and `0.237060546875`
themselves. -/
theorem GuessVerificationProgress_not_monotone_exact :
    (∀ q ∈ fTrace data 1484138400 { nChainTx := 185062, nTime := 1482064800 },
      isBinary64 q = true) ∧
    (∀ q ∈ fTrace data 1484138400 { nChainTx := 185336, nTime := 1482064800 },
      isBinary64 q = true) := by
  constructor <;> with_unfolding_all decide

/-- Claim C10. At or below the last checkpoint, on either network, the result is
`workDone / (workDone + workRemaining)` with `workDone = chainTxCount` and
`workRemaining = (lastCheckpointTxCount - chainTxCount)
  + 5.0 * ((now - lastCheckpointTime) / 86400 * txPerDayEstimate)`,
and it is the same for every block timestamp. -/
theorem GuessVerificationProgress_below_formula (fTestNet : Bool) (nNow : Int)
    (idx : CBlockIndex)
    (h : idx.nChainTx ≤ (Checkpoints fTestNet).nTransactionsLastCheckpoint) :
    GuessVerificationProgress fTestNet nNow (some idx) =
        fdiv (specWorkDoneBelow idx.nChainTx)
          (specWorkDoneBelow idx.nChainTx
            + specWorkRemainingBelow (Checkpoints fTestNet) idx.nChainTx nNow) ∧
      ∀ nTime : Int,
        GuessVerificationProgress fTestNet nNow
            (some { nChainTx := idx.nChainTx, nTime := nTime })
          = GuessVerificationProgress fTestNet nNow (some idx) := by
  constructor
  · simp only [GuessVerificationProgress, guessWith, fWork, if_pos h, specWorkDoneBelow,
      specWorkRemainingBelow, fSigcheckVerificationFactor]
    congr 1
    push_cast
    ring
  · intro nTime
    simp only [GuessVerificationProgress, guessWith, fWork, if_pos h]

/-- Claim C10 on the main network one day after the checkpoint time, for a block with
100000 chain transactions: the result is `100000 / (100000 + (85062 + 125000))`. -/
theorem GuessVerificationProgress_below_formula_witness :
    (100000 : Int) ≤ (Checkpoints false).nTransactionsLastCheckpoint ∧
      GuessVerificationProgress false 1484224800
        (some { nChainTx := 100000, nTime := 1400000000 })
        = double.finite (100000 / 210062) :=
  ⟨by decide,
    (GuessVerificationProgress_below_formula false 1484224800
      { nChainTx := 100000, nTime := 1400000000 } (by decide)).1.trans
      (by
        simp [specWorkDoneBelow, specWorkRemainingBelow, Checkpoints, data, fdiv]
        norm_num)⟩

/-- Claim C11. Above the last checkpoint, on either network, the result is
`workDone / (workDone + workRemaining)` with
`workDone = lastCheckpointTxCount + 5.0 * (chainTxCount - lastCheckpointTxCount)` and
`workRemaining = 5.0 * ((now - blockTime) / 86400 * txPerDayEstimate)`, `blockTime`
being the time of the evaluated block. -/
theorem GuessVerificationProgress_above_formula (fTestNet : Bool) (nNow : Int)
    (idx : CBlockIndex)
    (h : (Checkpoints fTestNet).nTransactionsLastCheckpoint < idx.nChainTx) :
    GuessVerificationProgress fTestNet nNow (some idx) =
      fdiv (specWorkDoneAbove (Checkpoints fTestNet) idx.nChainTx)
        (specWorkDoneAbove (Checkpoints fTestNet) idx.nChainTx
          + specWorkRemainingAbove (Checkpoints fTestNet) idx.nTime nNow) := by
  have h' : ¬ idx.nChainTx ≤ (Checkpoints fTestNet).nTransactionsLastCheckpoint := by omega
  simp only [GuessVerificationProgress, guessWith, fWork, if_neg h', specWorkDoneAbove,
    specWorkRemainingAbove, fSigcheckVerificationFactor]
  push_cast
  ring_nf

/-- Claim C11 on the main network for a block with 185336 chain transactions stamped
24 days before `nNow`: the result is `186432 / (186432 + 600000)`. -/
theorem GuessVerificationProgress_above_formula_witness :
    (Checkpoints false).nTransactionsLastCheckpoint < 185336 ∧
      GuessVerificationProgress false 1486212000
        (some { nChainTx := 185336, nTime := 1484138400 })
        = double.finite (186432 / 786432) :=
  ⟨by decide,
    (GuessVerificationProgress_above_formula false 1486212000
      { nChainTx := 185336, nTime := 1484138400 } (by decide)).trans
      (by
        simp [specWorkDoneAbove, specWorkRemainingAbove, Checkpoints, data, fdiv]
        norm_num)⟩

/-- Claim C12. On either network, for a block with exactly the transaction count of
the last checkpoint, evaluated at the checkpoint time, the extrapolated term is 0,
the work left is 0 and the result is exactly `1.0`, whatever the block time. -/
theorem GuessVerificationProgress_at_checkpoint (fTestNet : Bool) (nTime : Int) :
    fExtrapolated (Checkpoints fTestNet) (Checkpoints fTestNet).nTimeLastCheckpoint
        (Checkpoints fTestNet).nTimeLastCheckpoint = 0 ∧
      fWork (Checkpoints fTestNet) (Checkpoints fTestNet).nTimeLastCheckpoint
          { nChainTx := (Checkpoints fTestNet).nTransactionsLastCheckpoint, nTime := nTime }
        = (((Checkpoints fTestNet).nTransactionsLastCheckpoint : ℚ), 0) ∧
      GuessVerificationProgress fTestNet (Checkpoints fTestNet).nTimeLastCheckpoint
          (some { nChainTx := (Checkpoints fTestNet).nTransactionsLastCheckpoint,
                  nTime := nTime })
        = double.finite 1 := by
  cases fTestNet <;>
    simp [GuessVerificationProgress, guessWith, fWork, fExtrapolated, Checkpoints, data,
      dataTestnet, fSigcheckVerificationFactor, fdiv]

/-- On the main network the run of a block at the last checkpoint, evaluated at the
checkpoint time, takes the values 185062, 0 and 1 only, whatever the block time; binary64
holds them exactly. -/
theorem GuessVerificationProgress_at_checkpoint_exact (nTime : Int) :
    ∀ q ∈ fTrace data 1484138400 { nChainTx := 185062, nTime := nTime },
      isBinary64 q = true := by
  have h : fTrace data 1484138400 { nChainTx := 185062, nTime := nTime }
      = [185062, 185062, 0, 0, 0, 0, 0, 0, 185062, 0, 185062, 1] := by
    simp [fTrace, fWork, data, fSigcheckVerificationFactor]
  rw [h]
  with_unfolding_all decide

/-- Claim C13. Without a block-index entry (`pindex == NULL`) the result is exactly
`0.0`, on either network and at every time. -/
theorem GuessVerificationProgress_null (fTestNet : Bool) (nNow : Int) :
    GuessVerificationProgress fTestNet nNow none = double.finite 0 := by
  rfl

/-! ## The datasets -/

/-- Claim C14. The selector is a function of the network flag alone: the test dataset
(one checkpoint, at height 546; time 1338180505, 16341 transactions, 300 a day) when
the flag is set, the main dataset (13 checkpoints from height 0 to height 146109; time
1484138400, 185062 transactions, 5000 a day) in every other case. -/
theorem Checkpoints_selects :
    Checkpoints true = dataTestnet ∧
      (∀ fTestNet, fTestNet ≠ true → Checkpoints fTestNet = data) ∧
      dataTestnet.mapCheckpoints.map Prod.fst = [546] ∧
      dataTestnet.nTimeLastCheckpoint = 1338180505 ∧
      dataTestnet.nTransactionsLastCheckpoint = 16341 ∧
      dataTestnet.fTransactionsPerDay = 300 ∧
      data.mapCheckpoints.map Prod.fst
        = [0, 10000, 25000, 34000, 55000, 75000, 87000, 104461, 110000, 124521, 141912,
            145101, 146109] ∧
      data.mapCheckpoints.length = 13 ∧
      data.nTimeLastCheckpoint = 1484138400 ∧
      data.nTransactionsLastCheckpoint = 185062 ∧
      data.fTransactionsPerDay = 5000 := by
  refine ⟨rfl, ?_, by decide, rfl, rfl, rfl, by decide, by decide, rfl, rfl, rfl⟩
  intro fTestNet h
  cases fTestNet with
  | false => rfl
  | true => exact absurd rfl h

/-- An entry of the map after an insertion is the inserted pair or was there before. -/
theorem MapCheckpoints.mem_insert (m : MapCheckpoints) (k : Int) (v : uint256)
    (e : Int × uint256) (he : e ∈ m.insert k v) : e = (k, v) ∨ e ∈ m := by
  induction m with
  | nil =>
    simp only [MapCheckpoints.insert, List.mem_singleton] at he
    exact Or.inl he
  | cons e0 rest ih =>
    obtain ⟨k0, v0⟩ := e0
    simp only [MapCheckpoints.insert] at he
    split_ifs at he with h1 h2
    · rcases List.mem_cons.1 he with h | h
      · exact Or.inl h
      · exact Or.inr h
    · exact Or.inr he
    · rcases List.mem_cons.1 he with h | h
      · exact Or.inr (h ▸ List.mem_cons_self _ _)
      · rcases ih h with h3 | h3
        · exact Or.inl h3
        · exact Or.inr (List.mem_cons_of_mem _ h3)

/-- Insertion keeps the keys in strictly increasing order. -/
theorem MapCheckpoints.insert_pairwise (m : MapCheckpoints)
    (hm : m.Pairwise (fun a b => a.1 < b.1)) (k : Int) (v : uint256) :
    (m.insert k v).Pairwise (fun a b => a.1 < b.1) := by
  induction m with
  | nil => simp [MapCheckpoints.insert]
  | cons e0 rest ih =>
    obtain ⟨k0, v0⟩ := e0
    have hm' := List.pairwise_cons.1 hm
    simp only [MapCheckpoints.insert]
    split_ifs with h1 h2
    · refine List.pairwise_cons.2 ⟨?_, hm⟩
      intro e he
      rcases List.mem_cons.1 he with h | h
      · rw [h]
        exact h1
      · exact lt_trans h1 (hm'.1 e h)
    · exact hm
    · refine List.pairwise_cons.2 ⟨?_, ih hm'.2⟩
      intro e he
      rcases MapCheckpoints.mem_insert rest k v e he with h | h
      · rw [h]
        show k0 < k
        omega
      · exact hm'.1 e h

/-- Every map built by `map_list_of` has its keys in strictly increasing order, in
whatever order the pairs are listed. -/
theorem map_list_of_pairwise (entries : List (Int × uint256)) :
    (map_list_of entries).Pairwise (fun a b => a.1 < b.1) := by
  have key : ∀ (l : List (Int × uint256)) (acc : MapCheckpoints),
      acc.Pairwise (fun a b => a.1 < b.1) →
      (l.foldl (fun m e => MapCheckpoints.insert m e.1 e.2) acc).Pairwise
        (fun a b => a.1 < b.1) := by
    intro l
    induction l with
    | nil => exact fun acc h => h
    | cons e rest ih =>
      intro acc h
      exact ih _ (MapCheckpoints.insert_pairwise acc h e.1 e.2)
  exact key entries [] List.Pairwise.nil

/-- Claim C15. In both built-in tables the heights, in the order of enumeration, are
non-negative and strictly increasing, no height occurs twice, the last entry has the
greatest height, and the reverse enumeration is strictly decreasing. -/
theorem mapCheckpoints_heights (fTestNet : Bool) :
    (∀ e ∈ (Checkpoints fTestNet).mapCheckpoints, 0 ≤ e.1) ∧
      ((Checkpoints fTestNet).mapCheckpoints).Pairwise (fun a b => a.1 < b.1) ∧
      (((Checkpoints fTestNet).mapCheckpoints).map Prod.fst).Nodup ∧
      (∃ last, (Checkpoints fTestNet).mapCheckpoints.rbegin = some last ∧
        ∀ e ∈ (Checkpoints fTestNet).mapCheckpoints, e.1 ≤ last.1) ∧
      ((Checkpoints fTestNet).mapCheckpoints.reverse).Pairwise (fun a b => b.1 < a.1) := by
  have hsorted : ((Checkpoints fTestNet).mapCheckpoints).Pairwise
      (fun a b => a.1 < b.1) := by
    cases fTestNet
    · exact map_list_of_pairwise _
    · exact map_list_of_pairwise _
  refine ⟨?_, hsorted, ?_, ?_, List.pairwise_reverse.2 hsorted⟩
  · cases fTestNet <;> decide
  · rw [List.Nodup, List.pairwise_map]
    exact hsorted.imp (fun h => ne_of_lt h)
  · cases fTestNet
    · exact ⟨(146109, 0x00000000000004cee6fc9f080fe4d0e102102c9049f8ebde5c1e3e922992410b),
        by decide, by decide⟩
    · exact ⟨(546, 0x000000002a936ca763904c3c35fce2f3556c559c0214345d31b1bcebf76acb70),
        by decide, by decide⟩

/-- Claim C19. Both built-in tables are non-empty, so the entry `*rbegin()` exists and
`GetTotalBlocksEstimate` returns a height on either network, with enforcement enabled
as well as disabled. -/
theorem GetTotalBlocksEstimate_defined (fCheckpoints fTestNet : Bool) :
    (Checkpoints fTestNet).mapCheckpoints ≠ [] ∧
      ((Checkpoints fTestNet).mapCheckpoints.rbegin).isSome = true ∧
      (GetTotalBlocksEstimate fCheckpoints fTestNet).isSome = true := by
  cases fCheckpoints <;> cases fTestNet <;> decide

/-! ## GuessVerificationProgress in exact arithmetic -/

/-- Claim C16. With either built-in dataset and for all integers `nNow`, `nChainTx` and
`nTime`, the denominator `fWorkBefore + fWorkAfter`, read in exact arithmetic, is not
zero, so the division returns a finite number. At or below the last checkpoint the
denominator is `185062 + 25000*(nNow - 1484138400)/86400` on the main network and
`16341 + 1500*(nNow - 1338180505)/86400` on the test network; above it, it is
`lastCheckpointTxCount + 5*(nChainTx - lastCheckpointTxCount)
  + 5*txPerDay*(nNow - nTime)/86400`. -/
theorem fWork_denominator (fTestNet : Bool) (nNow : Int) (idx : CBlockIndex) :
    (fWork (Checkpoints fTestNet) nNow idx).1 + (fWork (Checkpoints fTestNet) nNow idx).2
        ≠ 0 ∧
      (∃ q, GuessVerificationProgress fTestNet nNow (some idx) = double.finite q) ∧
      (fTestNet = false → idx.nChainTx ≤ 185062 →
        (fWork (Checkpoints fTestNet) nNow idx).1
            + (fWork (Checkpoints fTestNet) nNow idx).2
          = 185062 + 25000 * ((nNow : ℚ) - 1484138400) / 86400) ∧
      (fTestNet = true → idx.nChainTx ≤ 16341 →
        (fWork (Checkpoints fTestNet) nNow idx).1
            + (fWork (Checkpoints fTestNet) nNow idx).2
          = 16341 + 1500 * ((nNow : ℚ) - 1338180505) / 86400) ∧
      ((Checkpoints fTestNet).nTransactionsLastCheckpoint < idx.nChainTx →
        (fWork (Checkpoints fTestNet) nNow idx).1
            + (fWork (Checkpoints fTestNet) nNow idx).2
          = ((Checkpoints fTestNet).nTransactionsLastCheckpoint : ℚ)
            + 5 * ((idx.nChainTx : ℚ) - (Checkpoints fTestNet).nTransactionsLastCheckpoint)
            + 5 * (Checkpoints fTestNet).fTransactionsPerDay
              * ((nNow : ℚ) - idx.nTime) / 86400) := by
  have hne := fWork_sum_ne_zero fTestNet nNow idx
  have hfin : ∃ q, GuessVerificationProgress fTestNet nNow (some idx) = double.finite q :=
    ⟨(fWork (Checkpoints fTestNet) nNow idx).1 /
        ((fWork (Checkpoints fTestNet) nNow idx).1
          + (fWork (Checkpoints fTestNet) nNow idx).2),
      by simp [GuessVerificationProgress, guessWith, fdiv, hne]⟩
  refine ⟨hne, hfin, ?_, ?_, ?_⟩
  · intro hnet hc
    subst hnet
    have hc' : idx.nChainTx ≤ (Checkpoints false).nTransactionsLastCheckpoint := hc
    simp only [fWork, if_pos hc', fSigcheckVerificationFactor]
    simp only [Checkpoints, data, Bool.false_eq_true, if_false]
    push_cast
    ring
  · intro hnet hc
    subst hnet
    have hc' : idx.nChainTx ≤ (Checkpoints true).nTransactionsLastCheckpoint := hc
    simp only [fWork, if_pos hc', fSigcheckVerificationFactor]
    simp only [Checkpoints, dataTestnet, if_true]
    push_cast
    ring
  · intro hc
    have hc' : ¬ idx.nChainTx ≤ (Checkpoints fTestNet).nTransactionsLastCheckpoint := by
      omega
    simp only [fWork, if_neg hc', fSigcheckVerificationFactor]
    push_cast
    ring

/-- Claim C17. On either network, for an entry with a non-negative `nChainTx` and no
negative extrapolation interval (`nNow` not before the checkpoint time when `nChainTx`
is at most the checkpoint count, not before the block time when it is greater), the
result, read in exact arithmetic, is a finite number between 0 and 1. -/
theorem GuessVerificationProgress_bounded (fTestNet : Bool) (nNow : Int)
    (idx : CBlockIndex) (hc : 0 ≤ idx.nChainTx)
    (hbelow : idx.nChainTx ≤ (Checkpoints fTestNet).nTransactionsLastCheckpoint →
      (Checkpoints fTestNet).nTimeLastCheckpoint ≤ nNow)
    (habove : (Checkpoints fTestNet).nTransactionsLastCheckpoint < idx.nChainTx →
      idx.nTime ≤ nNow) :
    ∃ q, GuessVerificationProgress fTestNet nNow (some idx) = double.finite q ∧
      0 ≤ q ∧ q ≤ 1 :=
  guessWith_unit_interval (Checkpoints fTestNet) nNow idx (Checkpoints_pos fTestNet).1
    (Checkpoints_pos fTestNet).2 hc hbelow habove

/-- Claim C17 on the test network, above the last checkpoint: a block with 20000 chain
transactions stamped one day before `nNow`. -/
theorem GuessVerificationProgress_bounded_witness :
    (0 : Int) ≤ 20000 ∧ (1338266905 : Int) ≤ 1338353305 ∧
      ∃ q, GuessVerificationProgress true 1338353305
          (some { nChainTx := 20000, nTime := 1338266905 }) = double.finite q ∧
        0 ≤ q ∧ q ≤ 1 :=
  ⟨by decide, by decide,
    GuessVerificationProgress_bounded true 1338353305
      { nChainTx := 20000, nTime := 1338266905 } (by decide) (fun _ => by decide)
      (fun _ => by decide)⟩

/-- Claim C18. On either network, for a fixed `nNow` and a fixed block time between
the checkpoint time and `nNow`, the result, read in exact arithmetic, does not
decrease as `nChainTx` grows over the non-negative counts, the two sides of the
regime boundary included. -/
theorem GuessVerificationProgress_nondecreasing (fTestNet : Bool)
    (nNow nTime c1 c2 : Int) (_h0 : 0 ≤ c1)
    (ht : (Checkpoints fTestNet).nTimeLastCheckpoint ≤ nTime) (hnow : nTime ≤ nNow)
    (hc : c1 ≤ c2) :
    double.le
      (GuessVerificationProgress fTestNet nNow (some { nChainTx := c1, nTime := nTime }))
      (GuessVerificationProgress fTestNet nNow (some { nChainTx := c2, nTime := nTime })) :=
  guessWith_monotone (Checkpoints fTestNet) nNow nTime c1 c2 (Checkpoints_pos fTestNet).1
    (Checkpoints_pos fTestNet).2 ht hnow hc

/-- Claim C18 on the test network across the regime boundary: block time one day after
the checkpoint time, `nNow` two days after it, 16341 and 16342 chain transactions. -/
theorem GuessVerificationProgress_nondecreasing_witness :
    (0 : Int) ≤ 16341 ∧ (Checkpoints true).nTimeLastCheckpoint ≤ 1338266905 ∧
      (1338266905 : Int) ≤ 1338353305 ∧ (16341 : Int) ≤ 16342 ∧
      double.le
        (GuessVerificationProgress true 1338353305
          (some { nChainTx := 16341, nTime := 1338266905 }))
        (GuessVerificationProgress true 1338353305
          (some { nChainTx := 16342, nTime := 1338266905 })) :=
  ⟨by decide, by decide, by decide, by decide,
    GuessVerificationProgress_nondecreasing true 1338353305 1338266905 16341 16342
      (by decide) (by decide) (by decide) (by decide)⟩

/-! ## The last checkpoint -/

/-- Claim C20. With enforcement enabled, on either network, when `mapBlockIndex` has
the hash pinned at the height `GetTotalBlocksEstimate()` among its keys,
`GetLastCheckpoint` returns the pointer stored under that hash, whatever else is
known, and `CheckBlock` accepts the hash at that height. -/
theorem GetLastCheckpoint_top (fTestNet : Bool) (mapBlockIndex : BlockIndexMap)
    (nHeight : Int) (H : uint256) (t : Option CBlockIndex)
    (hest : GetTotalBlocksEstimate true fTestNet = some nHeight)
    (hpin : (Checkpoints fTestNet).mapCheckpoints.find nHeight = some H)
    (hknown : mapBlockIndex.find H = some t) :
    GetLastCheckpoint true fTestNet mapBlockIndex = t ∧
      CheckBlock true fTestNet nHeight H = true := by
  have hmem := MapCheckpoints.mem_of_find _ _ _ hpin
  have hmax : ∀ e ∈ (Checkpoints fTestNet).mapCheckpoints, e.1 ≤ nHeight := by
    cases fTestNet with
    | false =>
      have h1 : GetTotalBlocksEstimate true false = some 146109 := by decide
      have h2 : nHeight = 146109 := by
        rw [h1] at hest
        exact (Option.some.inj hest).symm
      rw [h2]
      decide
    | true =>
      have h1 : GetTotalBlocksEstimate true true = some 546 := by decide
      have h2 : nHeight = 546 := by
        rw [h1] at hest
        exact (Option.some.inj hest).symm
      rw [h2]
      decide
  constructor
  · simp only [GetLastCheckpoint, Bool.not_true, Bool.false_eq_true, if_false]
    apply lastCheckpointLoop_highest mapBlockIndex _ _ nHeight H t
    · exact List.mem_reverse.2 hmem
    · exact hknown
    · intro e he hlt
      have := hmax e (List.mem_reverse.1 he)
      omega
    · exact List.pairwise_reverse.2 (mapCheckpoints_pairwise fTestNet)
  · simp [CheckBlock, hpin]

/-- Claim C20 on the main network with the hashes of heights 0, 10000 and 146109 known:
the entry stored for height 146109 is returned. -/
theorem GetLastCheckpoint_top_witness :
    GetTotalBlocksEstimate true false = some 146109 ∧
      GetLastCheckpoint true false mapBlockIndexThree
        = some { nChainTx := 185062, nTime := 1484138400 } ∧
      CheckBlock true false 146109
        0x00000000000004cee6fc9f080fe4d0e102102c9049f8ebde5c1e3e922992410b = true :=
  ⟨by decide,
    GetLastCheckpoint_top false mapBlockIndexThree 146109
      0x00000000000004cee6fc9f080fe4d0e102102c9049f8ebde5c1e3e922992410b _
      (by decide) (by decide) (by decide)⟩

/-! ## Binary64 rounding: the relative error -/

/-- The counted halvings give a power of two below the number. -/
theorem log2Fuel_le (fuel n : Nat) (hn : 0 < n) (hf : n ≤ fuel) :
    2 ^ log2Fuel fuel n ≤ n := by
  induction fuel generalizing n with
  | zero => omega
  | succ fuel ih =>
    unfold log2Fuel
    split_ifs with h
    · simpa using hn
    · have h2 : 0 < n / 2 := Nat.div_pos (by omega) (by decide)
      have h3 : n / 2 ≤ fuel := by omega
      have h4 := ih (n / 2) h2 h3
      rw [pow_succ]
      omega

/-- The next power of two is above the number. -/
theorem lt_log2Fuel (fuel n : Nat) (hf : n ≤ fuel) :
    n < 2 ^ (log2Fuel fuel n + 1) := by
  induction fuel generalizing n with
  | zero =>
    have : n = 0 := by omega
    simp [this, log2Fuel]
  | succ fuel ih =>
    unfold log2Fuel
    split_ifs with h
    · simpa using h
    · have h3 : n / 2 ≤ fuel := by omega
      have h4 := ih (n / 2) h3
      rw [pow_succ]
      omega

/-- Scaling is multiplication by the integer power of two. -/
theorem scale2_eq (x : ℚ) (k : Int) : scale2 x k = x * (2 : ℚ) ^ k := by
  unfold scale2
  split_ifs with h
  · obtain ⟨n, rfl⟩ := Int.eq_ofNat_of_zero_le h
    simp
  · have h1 : 0 ≤ -k := by omega
    obtain ⟨n, hn⟩ := Int.eq_ofNat_of_zero_le h1
    have hk : k = -(n : Int) := by omega
    rw [hn, hk]
    simp [div_eq_mul_inv]

/-- The binary exponent is a lower bound: `2^(ilog2 x) ≤ |x|` for a non-zero `x`. -/
theorem zpow_ilog2_le (x : ℚ) (hx : x ≠ 0) : (2 : ℚ) ^ ilog2 x ≤ |x| := by
  unfold ilog2
  simp only
  split_ifs with h
  · rw [scale2_eq, one_mul] at h
    exact h
  · have hnum : x.num.natAbs ≠ 0 := by
      simpa using Rat.num_ne_zero.2 hx
    have ha : 2 ^ bitLog2 x.num.natAbs ≤ x.num.natAbs :=
      log2Fuel_le _ _ (Nat.pos_of_ne_zero hnum) le_rfl
    have hb : x.den < 2 ^ (bitLog2 x.den + 1) := lt_log2Fuel _ _ le_rfl
    have habs : |x| = (x.num.natAbs : ℚ) / (x.den : ℚ) := by
      conv_lhs => rw [← Rat.num_div_den x]
      rw [abs_div, Nat.abs_cast, Nat.cast_natAbs, Int.cast_abs]
    have haq : (2 : ℚ) ^ bitLog2 x.num.natAbs ≤ (x.num.natAbs : ℚ) := by exact_mod_cast ha
    have hbq : (x.den : ℚ) ≤ (2 : ℚ) ^ (bitLog2 x.den + 1) := by exact_mod_cast hb.le
    have hden : (0 : ℚ) < x.den := by exact_mod_cast x.den_pos
    have hexp : ((bitLog2 x.num.natAbs : Int) - (bitLog2 x.den : Int) - 1)
        = (bitLog2 x.num.natAbs : Int) - ((bitLog2 x.den + 1 : Nat) : Int) := by
      push_cast
      ring
    rw [habs, hexp, zpow_sub₀ (by norm_num : (2 : ℚ) ≠ 0), zpow_natCast, zpow_natCast]
    exact div_le_div₀ (by positivity) haq hden hbq

/-- Rounding to the nearest integer moves a number by at most one half. -/
theorem roundHalfEven_error (y : ℚ) : |(roundHalfEven y : ℚ) - y| ≤ 1 / 2 := by
  have h1 : (⌊y⌋ : ℚ) ≤ y := Int.floor_le y
  have h2 : y < (⌊y⌋ : ℚ) + 1 := Int.lt_floor_add_one y
  unfold roundHalfEven
  rw [abs_le]
  split_ifs with h3 h4 h5
  · constructor <;> linarith
  · push_cast
    constructor <;> linarith
  · have h6 : y - ⌊y⌋ = 1 / 2 := le_antisymm (not_lt.1 h4) (not_lt.1 h3)
    constructor <;> linarith
  · have h6 : y - ⌊y⌋ = 1 / 2 := le_antisymm (not_lt.1 h4) (not_lt.1 h3)
    push_cast
    constructor <;> linarith

/-- Binary64 rounding has a relative error of at most `2^-53`. -/
theorem round64_roundsWithin : roundsWithin (1 / 2 ^ 53) round64 := by
  intro x
  unfold round64
  split_ifs with hx
  · simp [hx]
  · have hs : (0 : ℚ) < (2 : ℚ) ^ (52 - ilog2 x) := by positivity
    have hlow := zpow_ilog2_le x hx
    have herr := roundHalfEven_error (scale2 x (52 - ilog2 x))
    rw [scale2_eq] at herr ⊢
    rw [scale2_eq]
    have hinv : (2 : ℚ) ^ (ilog2 x - 52) = ((2 : ℚ) ^ (52 - ilog2 x))⁻¹ := by
      rw [← zpow_neg]
      congr 1
      ring
    rw [hinv]
    set s := (2 : ℚ) ^ (52 - ilog2 x) with hsdef
    set r : ℚ := (roundHalfEven (x * s) : ℚ) with hrdef
    have hy : (2 : ℚ) ^ (52 : Int) ≤ |x| * s := by
      have : (2 : ℚ) ^ (52 : Int) = (2 : ℚ) ^ ilog2 x * s := by
        rw [hsdef, ← zpow_add₀ (by norm_num : (2 : ℚ) ≠ 0)]
        congr 1
        ring
      rw [this]
      exact mul_le_mul_of_nonneg_right hlow hs.le
    have h52 : (2 : ℚ) ^ (52 : Int) = 2 ^ 52 := by norm_cast
    rw [h52] at hy
    have hrw : r * s⁻¹ - x = (r - x * s) * s⁻¹ := by
      rw [sub_mul, mul_assoc, mul_inv_cancel₀ hs.ne', mul_one]
    rw [hrw, abs_mul, abs_of_pos (inv_pos.2 hs)]
    have h3 : |r - x * s| * s⁻¹ ≤ 1 / 2 * s⁻¹ :=
      mul_le_mul_of_nonneg_right herr (inv_pos.2 hs).le
    have h4 : (1 : ℚ) / 2 * s⁻¹ ≤ 1 / 2 ^ 53 * |x| := by
      rw [← sub_nonneg]
      have : 1 / 2 ^ 53 * |x| - 1 / 2 * s⁻¹ = (|x| * s - 2 ^ 52) * (s⁻¹ / 2 ^ 53) := by
        field_simp
        ring
      rw [this]
      exact mul_nonneg (sub_nonneg.2 hy) (by positivity)
    exact le_trans h3 h4

/-! ## GuessVerificationProgress under rounding -/

/-- An exact value approximates itself. -/
theorem approx_refl (u x : ℚ) : approx u 0 x x := by
  simp [approx]

/-- A value that approximates a non-negative one is non-negative. -/
theorem approx_nonneg (u : ℚ) (k : Nat) (x y : ℚ) (hu1 : u ≤ 1) (hx : 0 ≤ x)
    (h : approx u k x y) : 0 ≤ y :=
  le_trans (mul_nonneg hx (pow_nonneg (sub_nonneg.2 hu1) k)) h.1

/-- One more rounding. -/
theorem approx_rnd (rnd : ℚ → ℚ) (u : ℚ) (k : Nat) (x y : ℚ) (hu0 : 0 ≤ u) (hu1 : u ≤ 1)
    (hrnd : roundsWithin u rnd) (hx : 0 ≤ x) (h : approx u k x y) :
    approx u (k + 1) x (rnd y) := by
  have hy : 0 ≤ y := approx_nonneg u k x y hu1 hx h
  have he := hrnd y
  rw [abs_of_nonneg hy, abs_le] at he
  have h1 : (0 : ℚ) ≤ 1 - u := sub_nonneg.2 hu1
  constructor
  · calc x * (1 - u) ^ (k + 1) = x * (1 - u) ^ k * (1 - u) := by ring
      _ ≤ y * (1 - u) := mul_le_mul_of_nonneg_right h.1 h1
      _ ≤ rnd y := by linarith
  · calc rnd y ≤ y * (1 + u) := by linarith
      _ ≤ x * (1 + u) ^ k * (1 + u) := mul_le_mul_of_nonneg_right h.2 (by linarith)
      _ = x * (1 + u) ^ (k + 1) := by ring

/-- More roundings allow more error. -/
theorem approx_mono (u : ℚ) (k m : Nat) (x y : ℚ) (hu0 : 0 ≤ u) (hu1 : u ≤ 1)
    (hx : 0 ≤ x) (hkm : k ≤ m) (h : approx u k x y) : approx u m x y := by
  have h1 : (0 : ℚ) ≤ 1 - u := sub_nonneg.2 hu1
  have h2 : (1 - u) ^ m ≤ (1 - u) ^ k := pow_le_pow_of_le_one h1 (by linarith) hkm
  have h3 : (1 + u) ^ k ≤ (1 + u) ^ m := pow_le_pow_right₀ (by linarith) hkm
  exact ⟨le_trans (mul_le_mul_of_nonneg_left h2 hx) h.1,
    le_trans h.2 (mul_le_mul_of_nonneg_left h3 hx)⟩

/-- Sums of approximations. -/
theorem approx_add (u : ℚ) (k : Nat) (x1 y1 x2 y2 : ℚ) (h1 : approx u k x1 y1)
    (h2 : approx u k x2 y2) : approx u k (x1 + x2) (y1 + y2) := by
  constructor
  · have := add_le_add h1.1 h2.1
    linarith
  · have := add_le_add h1.2 h2.2
    linarith

/-- Products of an approximation by a non-negative constant. -/
theorem approx_mul (u : ℚ) (k : Nat) (x y c : ℚ) (hc : 0 ≤ c) (h : approx u k x y) :
    approx u k (x * c) (y * c) := by
  constructor
  · have := mul_le_mul_of_nonneg_right h.1 hc
    linarith
  · have := mul_le_mul_of_nonneg_right h.2 hc
    linarith

/-- The work extrapolated under rounding approximates the exact one, in four
roundings. -/
theorem approx_extrapolated (rnd : ℚ → ℚ) (u : ℚ) (rate : ℚ) (d : Int) (hu0 : 0 ≤ u)
    (hu1 : u ≤ 1) (hrnd : roundsWithin u rnd) (hrate : 0 ≤ rate) (hd : 0 ≤ d) :
    approx u 4 ((d : ℚ) / 86400 * rate * fSigcheckVerificationFactor)
      (rnd (rnd (rnd (rnd (d : ℚ) / 86400) * rate) * fSigcheckVerificationFactor)) := by
  have hdq : (0 : ℚ) ≤ d := by exact_mod_cast hd
  have h5 : (0 : ℚ) ≤ fSigcheckVerificationFactor := by norm_num [fSigcheckVerificationFactor]
  have a1 := approx_rnd rnd u 0 _ _ hu0 hu1 hrnd hdq (approx_refl u (d : ℚ))
  have a2 := approx_mul u 1 _ _ (1 / 86400) (by norm_num) a1
  rw [← div_eq_mul_one_div, ← div_eq_mul_one_div] at a2
  have a3 := approx_rnd rnd u 1 _ _ hu0 hu1 hrnd (by positivity) a2
  have a4 := approx_mul u 2 _ _ rate hrate a3
  have a5 := approx_rnd rnd u 2 _ _ hu0 hu1 hrnd (by positivity) a4
  have a6 := approx_mul u 3 _ _ fSigcheckVerificationFactor h5 a5
  exact approx_rnd rnd u 3 _ _ hu0 hu1 hrnd (by positivity) a6

/-- Under the conditions of a non-negative count and a non-negative extrapolation
interval, both exact work terms are non-negative, their sum is positive, and the work
terms under rounding approximate them in three and five roundings. -/
theorem fWorkR_approx (rnd : ℚ → ℚ) (u : ℚ) (data : CCheckpointData) (nNow : Int)
    (idx : CBlockIndex) (hu0 : 0 ≤ u) (hu1 : u ≤ 1) (hrnd : roundsWithin u rnd)
    (hN : 0 < data.nTransactionsLastCheckpoint) (hrate : 0 ≤ data.fTransactionsPerDay)
    (hc : 0 ≤ idx.nChainTx)
    (hbelow : idx.nChainTx ≤ data.nTransactionsLastCheckpoint →
      data.nTimeLastCheckpoint ≤ nNow)
    (habove : data.nTransactionsLastCheckpoint < idx.nChainTx → idx.nTime ≤ nNow) :
    0 ≤ (fWork data nNow idx).1 ∧ 0 ≤ (fWork data nNow idx).2 ∧
      0 < (fWork data nNow idx).1 + (fWork data nNow idx).2 ∧
      approx u 3 (fWork data nNow idx).1 (fWorkR rnd data nNow idx).1 ∧
      approx u 5 (fWork data nNow idx).2 (fWorkR rnd data nNow idx).2 := by
  have hNq : (0 : ℚ) < data.nTransactionsLastCheckpoint := by exact_mod_cast hN
  have hcq : (0 : ℚ) ≤ idx.nChainTx := by exact_mod_cast hc
  have h5 : (0 : ℚ) ≤ fSigcheckVerificationFactor := by norm_num [fSigcheckVerificationFactor]
  by_cases h : idx.nChainTx ≤ data.nTransactionsLastCheckpoint
  · have hd : 0 ≤ nNow - data.nTimeLastCheckpoint := by
      have := hbelow h
      omega
    have hrest : 0 ≤ data.nTransactionsLastCheckpoint - idx.nChainTx := by omega
    have hrestq : (0 : ℚ) ≤ ((data.nTransactionsLastCheckpoint - idx.nChainTx : Int) : ℚ) := by
      exact_mod_cast hrest
    have hdq : (0 : ℚ) ≤ ((nNow - data.nTimeLastCheckpoint : Int) : ℚ) := by
      exact_mod_cast hd
    have hX := approx_extrapolated rnd u data.fTransactionsPerDay _ hu0 hu1 hrnd hrate hd
    have hXnn : (0 : ℚ) ≤ ((nNow - data.nTimeLastCheckpoint : Int) : ℚ) / 86400
        * data.fTransactionsPerDay * fSigcheckVerificationFactor := by positivity
    have b1 := approx_rnd rnd u 0 _ _ hu0 hu1 hrnd hcq (approx_refl u (idx.nChainTx : ℚ))
    have b2 := approx_rnd rnd u 0 _ _ hu0 hu1 hrnd hrestq (approx_refl u _)
    have b3 := approx_add u 4 _ _ _ _
      (approx_mono u 1 4 _ _ hu0 hu1 hrestq (by decide) b2) hX
    have b4 := approx_rnd rnd u 4 _ _ hu0 hu1 hrnd (add_nonneg hrestq hXnn) b3
    simp only [fWork, fWorkR, if_pos h]
    refine ⟨hcq, add_nonneg hrestq hXnn, ?_,
      approx_mono u 1 3 _ _ hu0 hu1 hcq (by decide) b1, b4⟩
    have : (idx.nChainTx : ℚ)
        + ((data.nTransactionsLastCheckpoint - idx.nChainTx : Int) : ℚ)
        = data.nTransactionsLastCheckpoint := by
      push_cast
      ring
    linarith
  · have h' : data.nTransactionsLastCheckpoint < idx.nChainTx := by omega
    have hd : 0 ≤ nNow - idx.nTime := by
      have := habove h'
      omega
    have hexp : 0 ≤ idx.nChainTx - data.nTransactionsLastCheckpoint := by omega
    have hexpq : (0 : ℚ) ≤ ((idx.nChainTx - data.nTransactionsLastCheckpoint : Int) : ℚ) := by
      exact_mod_cast hexp
    have hdq : (0 : ℚ) ≤ ((nNow - idx.nTime : Int) : ℚ) := by exact_mod_cast hd
    have hX := approx_extrapolated rnd u data.fTransactionsPerDay _ hu0 hu1 hrnd hrate hd
    have hXnn : (0 : ℚ) ≤ ((nNow - idx.nTime : Int) : ℚ) / 86400
        * data.fTransactionsPerDay * fSigcheckVerificationFactor := by positivity
    have c1 := approx_rnd rnd u 0 _ _ hu0 hu1 hrnd hNq.le
      (approx_refl u (data.nTransactionsLastCheckpoint : ℚ))
    have c2 := approx_rnd rnd u 0 _ _ hu0 hu1 hrnd hexpq (approx_refl u _)
    have c3 := approx_mul u 1 _ _ fSigcheckVerificationFactor h5 c2
    have c4 := approx_rnd rnd u 1 _ _ hu0 hu1 hrnd (mul_nonneg hexpq h5) c3
    have c5 := approx_add u 2 _ _ _ _
      (approx_mono u 1 2 _ _ hu0 hu1 hNq.le (by decide) c1) c4
    have c6 := approx_rnd rnd u 2 _ _ hu0 hu1 hrnd
      (add_nonneg hNq.le (mul_nonneg hexpq h5)) c5
    simp only [fWork, fWorkR, if_neg h]
    refine ⟨add_nonneg hNq.le (mul_nonneg hexpq h5), hXnn, ?_, c6,
      approx_mono u 4 5 _ _ hu0 hu1 hXnn (by decide) hX⟩
    have := mul_nonneg hexpq h5
    linarith

/-- Without rounding the rounded work terms are the exact ones. -/
theorem fWorkR_id (data : CCheckpointData) (nNow : Int) (idx : CBlockIndex) :
    fWorkR id data nNow idx = fWork data nNow idx := by
  simp [fWorkR, fWork]

/-- Without rounding the rounded body is the exact one. -/
theorem guessWithR_id (data : CCheckpointData) (nNow : Int) (pindex : Option CBlockIndex) :
    guessWithR id data nNow pindex = guessWith data nNow pindex := by
  cases pindex with
  | none => rfl
  | some idx =>
    simp only [guessWithR, guessWith, fWorkR_id, id]
    by_cases h : (fWork data nNow idx).1 + (fWork data nNow idx).2 = 0
    · simp [h]
    · simp [h, fdiv]

/-- Under the conditions of a non-negative count and a non-negative extrapolation
interval, the result under rounding is a finite non-negative number that is the exact
quotient up to ten roundings. -/
theorem guessWithR_near (rnd : ℚ → ℚ) (u : ℚ) (data : CCheckpointData) (nNow : Int)
    (idx : CBlockIndex) (hu0 : 0 ≤ u) (hu1 : u < 1) (hrnd : roundsWithin u rnd)
    (hN : 0 < data.nTransactionsLastCheckpoint) (hrate : 0 ≤ data.fTransactionsPerDay)
    (hc : 0 ≤ idx.nChainTx)
    (hbelow : idx.nChainTx ≤ data.nTransactionsLastCheckpoint →
      data.nTimeLastCheckpoint ≤ nNow)
    (habove : data.nTransactionsLastCheckpoint < idx.nChainTx → idx.nTime ≤ nNow) :
    ∃ F Q, guessWithR rnd data nNow (some idx) = double.finite F ∧
      guessWith data nNow (some idx) = double.finite Q ∧ 0 ≤ F ∧
      Q * (1 - u) ^ 4 ≤ F * (1 + u) ^ 6 ∧ F * (1 - u) ^ 6 ≤ Q * (1 + u) ^ 4 := by
  obtain ⟨hW, hA, hD, aW, aA⟩ := fWorkR_approx rnd u data nNow idx hu0 hu1.le hrnd hN hrate
    hc hbelow habove
  set W := (fWork data nNow idx).1 with hWdef
  set A := (fWork data nNow idx).2 with hAdef
  set w := (fWorkR rnd data nNow idx).1 with hwdef
  set a := (fWorkR rnd data nNow idx).2 with hadef
  have hpos1 : (0 : ℚ) < 1 - u := by linarith
  have hpos2 : (0 : ℚ) < 1 + u := by linarith
  have aSum := approx_add u 5 _ _ _ _ (approx_mono u 3 5 _ _ hu0 hu1.le hW (by decide) aW) aA
  have aDen := approx_rnd rnd u 5 _ _ hu0 hu1.le hrnd hD.le aSum
  set den := rnd (w + a) with hdendef
  have hden : 0 < den := lt_of_lt_of_le (mul_pos hD (pow_pos hpos1 6)) aDen.1
  have hw : 0 ≤ w := approx_nonneg u 3 W w hu1.le hW aW
  have hq : 0 ≤ w / den := div_nonneg hw hden.le
  have hF := hrnd (w / den)
  rw [abs_of_nonneg hq, abs_le] at hF
  set F := rnd (w / den) with hFdef
  have hFnn : 0 ≤ F := by
    have : 0 ≤ w / den * (1 - u) := mul_nonneg hq hpos1.le
    linarith
  have hFlow : w * (1 - u) ≤ F * den := by
    have h1 : w / den * (1 - u) ≤ F := by linarith
    have h2 := mul_le_mul_of_nonneg_right h1 hden.le
    have h3 : w / den * (1 - u) * den = w * (1 - u) := by
      field_simp
    linarith
  have hFup : F * den ≤ w * (1 + u) := by
    have h1 : F ≤ w / den * (1 + u) := by linarith
    have h2 := mul_le_mul_of_nonneg_right h1 hden.le
    have h3 : w / den * (1 + u) * den = w * (1 + u) := by
      field_simp
    linarith
  refine ⟨F, W / (W + A), ?_, ?_, hFnn, ?_, ?_⟩
  · simp only [guessWithR]
    rw [if_neg (ne_of_gt hden)]
  · simp only [guessWith]
    exact fdiv_pos _ _ hD
  · have h1 : F * den ≤ F * ((W + A) * (1 + u) ^ 6) :=
      mul_le_mul_of_nonneg_left aDen.2 hFnn
    have h2 : W * (1 - u) ^ 3 * (1 - u) ≤ w * (1 - u) :=
      mul_le_mul_of_nonneg_right aW.1 hpos1.le
    have h3 : W * (1 - u) ^ 4 ≤ F * (1 + u) ^ 6 * (W + A) := by
      calc W * (1 - u) ^ 4 = W * (1 - u) ^ 3 * (1 - u) := by ring
        _ ≤ w * (1 - u) := h2
        _ ≤ F * den := hFlow
        _ ≤ F * ((W + A) * (1 + u) ^ 6) := h1
        _ = F * (1 + u) ^ 6 * (W + A) := by ring
    rw [div_mul_eq_mul_div, div_le_iff₀ hD]
    exact h3
  · have h1 : F * ((W + A) * (1 - u) ^ 6) ≤ F * den :=
      mul_le_mul_of_nonneg_left aDen.1 hFnn
    have h2 : w * (1 + u) ≤ W * (1 + u) ^ 3 * (1 + u) :=
      mul_le_mul_of_nonneg_right aW.2 hpos2.le
    have h3 : F * (1 - u) ^ 6 * (W + A) ≤ W * (1 + u) ^ 4 := by
      calc F * (1 - u) ^ 6 * (W + A) = F * ((W + A) * (1 - u) ^ 6) := by ring
        _ ≤ F * den := h1
        _ ≤ w * (1 + u) := hFup
        _ ≤ W * (1 + u) ^ 3 * (1 + u) := h2
        _ = W * (1 + u) ^ 4 := by ring
    rw [div_mul_eq_mul_div, le_div_iff₀ hD]
    exact h3

/-- Under rounding of relative error `u`, for a block time between the checkpoint
time and `nNow`, the result for the smaller non-negative count exceeds the result for
the greater one by no more than the factor `((1 + u) / (1 - u))^10`. -/
theorem guessWithR_monotone_near (rnd : ℚ → ℚ) (u : ℚ) (data : CCheckpointData)
    (nNow nTime c1 c2 : Int) (hu0 : 0 ≤ u) (hu1 : u < 1) (hrnd : roundsWithin u rnd)
    (hN : 0 < data.nTransactionsLastCheckpoint) (hrate : 0 ≤ data.fTransactionsPerDay)
    (h0 : 0 ≤ c1) (ht : data.nTimeLastCheckpoint ≤ nTime) (hnow : nTime ≤ nNow)
    (hc : c1 ≤ c2) :
    ∃ F1 F2, guessWithR rnd data nNow (some { nChainTx := c1, nTime := nTime })
        = double.finite F1 ∧
      guessWithR rnd data nNow (some { nChainTx := c2, nTime := nTime })
        = double.finite F2 ∧
      0 ≤ F1 ∧ 0 ≤ F2 ∧ F1 * (1 - u) ^ 10 ≤ F2 * (1 + u) ^ 10 := by
  have hTnow : data.nTimeLastCheckpoint ≤ nNow := le_trans ht hnow
  obtain ⟨F1, Q1, hF1, hQ1, hF1nn, _, hup1⟩ := guessWithR_near rnd u data nNow
    { nChainTx := c1, nTime := nTime } hu0 hu1 hrnd hN hrate h0 (fun _ => hTnow)
    (fun _ => hnow)
  obtain ⟨F2, Q2, hF2, hQ2, hF2nn, hlow2, _⟩ := guessWithR_near rnd u data nNow
    { nChainTx := c2, nTime := nTime } hu0 hu1 hrnd hN hrate (le_trans h0 hc)
    (fun _ => hTnow) (fun _ => hnow)
  have hmono := guessWith_monotone data nNow nTime c1 c2 hN hrate ht hnow hc
  rw [hQ1, hQ2] at hmono
  have hQ : Q1 ≤ Q2 := hmono
  have hpos1 : (0 : ℚ) < 1 - u := by linarith
  have hpos2 : (0 : ℚ) < 1 + u := by linarith
  refine ⟨F1, F2, hF1, hF2, hF1nn, hF2nn, ?_⟩
  have h1 : F1 * (1 - u) ^ 6 * (1 - u) ^ 4 ≤ Q1 * (1 + u) ^ 4 * (1 - u) ^ 4 :=
    mul_le_mul_of_nonneg_right hup1 (pow_nonneg hpos1.le 4)
  have h2 : Q1 * ((1 + u) ^ 4 * (1 - u) ^ 4) ≤ Q2 * ((1 + u) ^ 4 * (1 - u) ^ 4) :=
    mul_le_mul_of_nonneg_right hQ (by positivity)
  have h3 : Q2 * (1 - u) ^ 4 * (1 + u) ^ 4 ≤ F2 * (1 + u) ^ 6 * (1 + u) ^ 4 :=
    mul_le_mul_of_nonneg_right hlow2 (pow_nonneg hpos2.le 4)
  calc F1 * (1 - u) ^ 10 = F1 * (1 - u) ^ 6 * (1 - u) ^ 4 := by ring
    _ ≤ Q1 * (1 + u) ^ 4 * (1 - u) ^ 4 := h1
    _ = Q1 * ((1 + u) ^ 4 * (1 - u) ^ 4) := by ring
    _ ≤ Q2 * ((1 + u) ^ 4 * (1 - u) ^ 4) := h2
    _ = Q2 * (1 - u) ^ 4 * (1 + u) ^ 4 := by ring
    _ ≤ F2 * (1 + u) ^ 6 * (1 + u) ^ 4 := h3
    _ = F2 * (1 + u) ^ 10 := by ring

/-- The binary exponent is sharp: `|x| < 2^(ilog2 x + 1)` for a non-zero `x`. -/
theorem abs_lt_zpow_ilog2 (x : ℚ) (hx : x ≠ 0) : |x| < (2 : ℚ) ^ (ilog2 x + 1) := by
  unfold ilog2
  simp only
  split_ifs with h
  · have hnum : x.num.natAbs ≠ 0 := by
      simpa using Rat.num_ne_zero.2 hx
    have ha : x.num.natAbs < 2 ^ (bitLog2 x.num.natAbs + 1) := lt_log2Fuel _ _ le_rfl
    have hb : 2 ^ bitLog2 x.den ≤ x.den := log2Fuel_le _ _ x.den_pos le_rfl
    have habs : |x| = (x.num.natAbs : ℚ) / (x.den : ℚ) := by
      conv_lhs => rw [← Rat.num_div_den x]
      rw [abs_div, Nat.abs_cast, Nat.cast_natAbs, Int.cast_abs]
    have haq : (x.num.natAbs : ℚ) < (2 : ℚ) ^ (bitLog2 x.num.natAbs + 1) := by
      exact_mod_cast ha
    have hbq : (2 : ℚ) ^ bitLog2 x.den ≤ (x.den : ℚ) := by exact_mod_cast hb
    have hexp : ((bitLog2 x.num.natAbs : Int) - (bitLog2 x.den : Int) + 1)
        = ((bitLog2 x.num.natAbs + 1 : Nat) : Int) - (bitLog2 x.den : Int) := by
      push_cast
      ring
    rw [habs, hexp, zpow_sub₀ (by norm_num : (2 : ℚ) ≠ 0), zpow_natCast, zpow_natCast]
    exact div_lt_div₀ haq hbq (by positivity) (by positivity)
  · rw [scale2_eq, one_mul] at h
    have : ((bitLog2 x.num.natAbs : Int) - (bitLog2 x.den : Int) - 1 + 1)
        = (bitLog2 x.num.natAbs : Int) - (bitLog2 x.den : Int) := by ring
    rw [this]
    exact not_le.1 h

/-- The rounding returns a binary64 number next to its argument: an integer of
magnitude at most `2^53` times `2^(e-52)`, at most half a unit in the last place
`2^(e-53)` away, where `e` is the binary exponent of the argument. -/
theorem round64_spec (x : ℚ) (hx : x ≠ 0) :
    ∃ m : Int, |m| ≤ 2 ^ 53 ∧ round64 x = (m : ℚ) * (2 : ℚ) ^ (ilog2 x - 52) ∧
      |round64 x - x| ≤ (2 : ℚ) ^ (ilog2 x - 53) := by
  have hs : (0 : ℚ) < (2 : ℚ) ^ (52 - ilog2 x) := by positivity
  have hup := abs_lt_zpow_ilog2 x hx
  have herr := roundHalfEven_error (scale2 x (52 - ilog2 x))
  rw [scale2_eq] at herr
  have hinv : (2 : ℚ) ^ (ilog2 x - 52) = ((2 : ℚ) ^ (52 - ilog2 x))⁻¹ := by
    rw [← zpow_neg]
    congr 1
    ring
  have hy : |x * (2 : ℚ) ^ (52 - ilog2 x)| < 2 ^ 53 := by
    rw [abs_mul, abs_of_pos hs]
    have h1 : (2 : ℚ) ^ (ilog2 x + 1) * (2 : ℚ) ^ (52 - ilog2 x) = 2 ^ 53 := by
      rw [← zpow_add₀ (by norm_num : (2 : ℚ) ≠ 0)]
      have : ilog2 x + 1 + (52 - ilog2 x) = (53 : Nat) := by
        push_cast
        ring
      rw [this, zpow_natCast]
    rw [← h1]
    exact mul_lt_mul_of_pos_right hup hs
  refine ⟨roundHalfEven (scale2 x (52 - ilog2 x)), ?_, ?_, ?_⟩
  · rw [scale2_eq]
    set y := x * (2 : ℚ) ^ (52 - ilog2 x) with hydef
    have h1 : |(roundHalfEven y : ℚ)| < 2 ^ 53 + 1 := by
      have h2 : |(roundHalfEven y : ℚ)| ≤ |(roundHalfEven y : ℚ) - y| + |y| := by
        have := abs_add ((roundHalfEven y : ℚ) - y) y
        simpa using this
      linarith
    have h3 : ((|roundHalfEven y| : Int) : ℚ) < ((2 ^ 53 + 1 : Int) : ℚ) := by
      push_cast
      linarith
    have h4 : |roundHalfEven y| < 2 ^ 53 + 1 := by exact_mod_cast h3
    omega
  · simp only [round64, if_neg hx]
    rw [scale2_eq]
  · simp only [round64, if_neg hx]
    rw [scale2_eq, scale2_eq, hinv]
    set s := (2 : ℚ) ^ (52 - ilog2 x) with hsdef
    have hrw : (roundHalfEven (x * s) : ℚ) * s⁻¹ - x
        = ((roundHalfEven (x * s) : ℚ) - x * s) * s⁻¹ := by
      rw [sub_mul, mul_assoc, mul_inv_cancel₀ hs.ne', mul_one]
    rw [hrw, abs_mul, abs_of_pos (inv_pos.2 hs)]
    have h3 := mul_le_mul_of_nonneg_right herr (inv_pos.2 hs).le
    have h4 : (1 : ℚ) / 2 * s⁻¹ = (2 : ℚ) ^ (ilog2 x - 53) := by
      rw [hsdef, ← zpow_neg]
      have : (1 : ℚ) / 2 = (2 : ℚ) ^ (-1 : Int) := by norm_num
      rw [this, ← zpow_add₀ (by norm_num : (2 : ℚ) ≠ 0)]
      congr 1
      ring
    rw [← h4]
    exact h3

/-! ## GuessVerificationProgress in binary64: claim C8 -/

/-- Claim C8 fails in two ways. Across the regime boundary with a block time before
the checkpoint time: on the main network at `nNow = 1484138400`, block time 24 days
earlier, 185062 chain transactions give `1.0` and 185336 give `971/4096`. And by
rounding, with the block time between the checkpoint time and `nNow`: at
`nNow = 1584138400`, block time one second earlier, 53835140 chain transactions give
`1 - 9709037 * 2^-53` and 53835141 give `1 - 9709038 * 2^-53`, which is smaller. -/
theorem GuessVerificationProgress64_not_monotone :
    (GuessVerificationProgress64 false 1484138400
        (some { nChainTx := 185062, nTime := 1482064800 }) = double.finite 1 ∧
      GuessVerificationProgress64 false 1484138400
        (some { nChainTx := 185336, nTime := 1482064800 }) = double.finite (971 / 4096) ∧
      ¬ double.le
        (GuessVerificationProgress64 false 1484138400
          (some { nChainTx := 185062, nTime := 1482064800 }))
        (GuessVerificationProgress64 false 1484138400
          (some { nChainTx := 185336, nTime := 1482064800 }))) ∧
    (GuessVerificationProgress64 false 1584138400
        (some { nChainTx := 53835140, nTime := 1584138399 })
        = double.finite (1 - 9709037 / 2 ^ 53) ∧
      GuessVerificationProgress64 false 1584138400
        (some { nChainTx := 53835141, nTime := 1584138399 })
        = double.finite (1 - 9709038 / 2 ^ 53) ∧
      ¬ double.le
        (GuessVerificationProgress64 false 1584138400
          (some { nChainTx := 53835140, nTime := 1584138399 }))
        (GuessVerificationProgress64 false 1584138400
          (some { nChainTx := 53835141, nTime := 1584138399 }))) := by
  have h1 : GuessVerificationProgress64 false 1484138400
      (some { nChainTx := 185062, nTime := 1482064800 }) = double.finite 1 := by
    decide!
  have h2 : GuessVerificationProgress64 false 1484138400
      (some { nChainTx := 185336, nTime := 1482064800 }) = double.finite (971 / 4096) := by
    decide!
  have h3 : GuessVerificationProgress64 false 1584138400
      (some { nChainTx := 53835140, nTime := 1584138399 })
      = double.finite (1 - 9709037 / 2 ^ 53) := by
    decide!
  have h4 : GuessVerificationProgress64 false 1584138400
      (some { nChainTx := 53835141, nTime := 1584138399 })
      = double.finite (1 - 9709038 / 2 ^ 53) := by
    decide!
  refine ⟨⟨h1, h2, ?_⟩, ⟨h3, h4, ?_⟩⟩
  · rw [h1, h2]
    simp only [double.le]
    norm_num
  · rw [h3, h4]
    simp only [double.le]
    norm_num

/-- Claim C8, amended. On either network, in binary64 arithmetic, for a fixed `nNow`,
a fixed block time between the checkpoint time and `nNow`, and counts
`0 ≤ c1 ≤ c2` on either side of the regime boundary, both results are finite and
non-negative and the result for `c1` is at most the result for `c2` times
`1 + 2^-48`: the estimate is non-decreasing up to rounding. -/
theorem GuessVerificationProgress64_monotone (fTestNet : Bool) (nNow nTime c1 c2 : Int)
    (h0 : 0 ≤ c1) (ht : (Checkpoints fTestNet).nTimeLastCheckpoint ≤ nTime)
    (hnow : nTime ≤ nNow) (hc : c1 ≤ c2) :
    ∃ q1 q2,
      GuessVerificationProgress64 fTestNet nNow (some { nChainTx := c1, nTime := nTime })
        = double.finite q1 ∧
      GuessVerificationProgress64 fTestNet nNow (some { nChainTx := c2, nTime := nTime })
        = double.finite q2 ∧
      0 ≤ q1 ∧ q1 ≤ q2 * (1 + 1 / 2 ^ 48) := by
  obtain ⟨F1, F2, hF1, hF2, hF1nn, hF2nn, hle⟩ := guessWithR_monotone_near round64
    (1 / 2 ^ 53) (Checkpoints fTestNet) nNow nTime c1 c2 (by norm_num) (by norm_num)
    round64_roundsWithin (Checkpoints_pos fTestNet).1 (Checkpoints_pos fTestNet).2 h0 ht
    hnow hc
  refine ⟨F1, F2, hF1, hF2, hF1nn, ?_⟩
  have hnum : (1 + 1 / 2 ^ 53 : ℚ) ^ 10 ≤ (1 + 1 / 2 ^ 48) * (1 - 1 / 2 ^ 53) ^ 10 := by
    norm_num
  have hpos : (0 : ℚ) < (1 - 1 / 2 ^ 53) ^ 10 := by norm_num
  have h1 : F2 * (1 + 1 / 2 ^ 53) ^ 10
      ≤ F2 * ((1 + 1 / 2 ^ 48) * (1 - 1 / 2 ^ 53) ^ 10) :=
    mul_le_mul_of_nonneg_left hnum hF2nn
  have h2 : F1 * (1 - 1 / 2 ^ 53) ^ 10
      ≤ F2 * (1 + 1 / 2 ^ 48) * (1 - 1 / 2 ^ 53) ^ 10 := by
    calc F1 * (1 - 1 / 2 ^ 53) ^ 10 ≤ F2 * (1 + 1 / 2 ^ 53) ^ 10 := hle
      _ ≤ F2 * ((1 + 1 / 2 ^ 48) * (1 - 1 / 2 ^ 53) ^ 10) := h1
      _ = F2 * (1 + 1 / 2 ^ 48) * (1 - 1 / 2 ^ 53) ^ 10 := by ring
  exact le_of_mul_le_mul_right h2 hpos

/-- Claim C8, amended, on the main network at the inputs where exact monotonicity is
lost to rounding: block time one second before `nNow`, 53835140 and 53835141 chain
transactions. -/
theorem GuessVerificationProgress64_monotone_witness :
    (0 : Int) ≤ 53835140 ∧ (Checkpoints false).nTimeLastCheckpoint ≤ 1584138399 ∧
      (1584138399 : Int) ≤ 1584138400 ∧ (53835140 : Int) ≤ 53835141 ∧
      ∃ q1 q2,
        GuessVerificationProgress64 false 1584138400
          (some { nChainTx := 53835140, nTime := 1584138399 }) = double.finite q1 ∧
        GuessVerificationProgress64 false 1584138400
          (some { nChainTx := 53835141, nTime := 1584138399 }) = double.finite q2 ∧
        0 ≤ q1 ∧ q1 ≤ q2 * (1 + 1 / 2 ^ 48) :=
  ⟨by decide, by decide, by decide, by decide,
    GuessVerificationProgress64_monotone false 1584138400 1584138399 53835140 53835141
      (by decide) (by decide) (by decide) (by decide)⟩

end Checkpoints
